import Mathlib

/-!
Verification development for the resource-summary data processor
(`src/core/data_processor.py`).

DataFrames are shallowly embedded: an untyped table is a column-name list
together with rows given as association lists from column names to cells.
Numeric cells are rationals (the Python floats of interest are exact
divisions and sums), dates are represented by their year once parseable
(raw-input acquisition is out of scope per the spec), and `Cell.na`
stands for pandas missing values (`NaN` / `NaT` / `None`).  Fallible
pandas operations (item access on a missing column) return `Except`.
The external rule table `config.rules.get_theoretical_charge` is an
injected collaborator (spec section 6) and is modelled as a function
parameter.
-/

/-- A cell of a pandas table: missing value, string, rational number, or a
parseable date identified by its year. -/
inductive Cell where
  | na : Cell
  | str : String → Cell
  | num : ℚ → Cell
  | date : Int → Cell
deriving DecidableEq, Repr

/-- Python exceptions that the translated code can raise. -/
inductive PyErr where
  | keyError : PyErr
  | typeError : PyErr
deriving DecidableEq, Repr

/-- A row of an untyped table: an association list from column names to cells. -/
abbrev PdRow := List (String × Cell)

/-- `row.get(c, pd.NA)`-style access: the cell under column `c`, or `na`. -/
def PdRow.get (r : PdRow) (c : String) : Cell :=
  ((r.find? (fun p => p.1 = c)).map Prod.snd).getD Cell.na

/-- An untyped pandas DataFrame: the column schema plus the rows. -/
structure DataFrame where
  cols : List String
  rows : List PdRow
deriving DecidableEq, Repr

/-- `row[c]` item access during `iterrows`: raises `KeyError` when `c` is not a
column of the frame, otherwise yields the row cell (`na` default). -/
def DataFrame.item (df : DataFrame) (r : PdRow) (c : String) : Except PyErr Cell :=
  if c ∈ df.cols then .ok (PdRow.get r c) else .error .keyError

/-- Python `dict` assignment `d[k] = v`: replace the value when the key is
present, otherwise append the binding. -/
def dictInsert (d : List (Cell × Cell)) (k v : Cell) : List (Cell × Cell) :=
  if d.any (fun p => p.1 = k) then d.map (fun p => if p.1 = k then (k, v) else p)
  else d ++ [(k, v)]

/-- Python `dict` lookup `d.get(k)`. -/
def dictLookup (d : List (Cell × Cell)) (k : Cell) : Option Cell :=
  (d.find? (fun p => p.1 = k)).map Prod.snd

/-- One loop iteration of `create_connection_dict`: read `row['Nom']`, then
store the row value when `row.get(column_name, pd.NA)` is not NA. -/
def connectionStep (df : DataFrame) (column_name : String) (acc : List (Cell × Cell))
    (row : PdRow) : Except PyErr (List (Cell × Cell)) := do
  let project_name ← df.item row ("Nom")
  if PdRow.get row column_name ≠ Cell.na then
    pure (dictInsert acc project_name (PdRow.get row column_name))
  else
    pure acc

/-- `DataProcessor.create_connection_dict` (src lines 27-47): build a lookup
dictionary from project name to the value of `column_name`, skipping NA
values; empty dictionary when the column is absent from the schema. -/
def create_connection_dict (df : DataFrame) (column_name : String) :
    Except PyErr (List (Cell × Cell)) :=
  if column_name ∈ df.cols then
    df.rows.foldlM (connectionStep df column_name) []
  else .ok []

/-- The last non-NA value of `column_name` among the rows whose `Nom` cell is
`k`, in source row order. -/
def lastNonNull (df : DataFrame) (column_name : String) (k : Cell) : Option Cell :=
  ((df.rows.filter
      (fun r => PdRow.get r ("Nom") = k ∧ PdRow.get r column_name ≠ Cell.na)).map
    (fun r => PdRow.get r column_name)).getLast?

/-- The first non-NA value of `column_name` among the rows whose `Nom` cell is
`k`, in source row order (the behaviour the spec sentence describes). -/
def firstNonNull (df : DataFrame) (column_name : String) (k : Cell) : Option Cell :=
  ((df.rows.filter
      (fun r => PdRow.get r ("Nom") = k ∧ PdRow.get r column_name ≠ Cell.na)).map
    (fun r => PdRow.get r column_name)).head?

/-- `CONNECTION_MAPPING` used by `normalize_connection_level` (src lines 79-85). -/
def CONNECTION_MAPPING : List (String × String) :=
  [("Connexion Recette int", "Connexion EDI"),
   ("Connexion Pré-produ", "Connexion EDI"),
   ("Connexion Développe", "Connexion EDI"),
   ("Connexion Recette", "Connexion EDI"),
   ("Connexion Production", "Connexion EDI")]

/-- Phase mapping used by `normalize_project_phase` (src lines 104-110). -/
def PHASE_MAPPING : List (String × String) :=
  [("Connexion Recette int", "Recette interne"),
   ("Connexion Pré-produ", "Pré-production"),
   ("Connexion Développe", "Développement"),
   ("Connexion Recette", "Recette utilisateur"),
   ("Connexion Production", "En production (VSR)")]

/-- `DataProcessor.normalize_connection_level` (src lines 64-87): falsy input
(`None` or the empty string) yields `None`; otherwise `mapping.get(x, x)`. -/
def normalize_connection_level : Option String → Option String
  | none => none
  | some s =>
    if s = "" then none
    else some (((CONNECTION_MAPPING.find? (fun p => p.1 = s)).map Prod.snd).getD s)

/-- `DataProcessor.normalize_project_phase` (src lines 89-112). -/
def normalize_project_phase : Option String → Option String
  | none => none
  | some s =>
    if s = "" then none
    else some (((PHASE_MAPPING.find? (fun p => p.1 = s)).map Prod.snd).getD s)

/-- The injected external rule table `config.rules.get_theoretical_charge`
(spec section 6): `None` is its not-found signal. -/
abbrev Rules := Option String → Option String → Option ℚ

/-- `DataProcessor.calculate_theoretical_charge` (src lines 114-130):
normalize both labels, then query the injected rule table. -/
def calculate_theoretical_charge (rules : Rules) (cl pp : Option String) : Option ℚ :=
  rules (normalize_connection_level cl) (normalize_project_phase pp)

/-- Helper: `getLast?` of a cons, phrased with `Option.or`. -/
theorem getLast?_cons_or {α : Type} (l : List α) (a : α) :
    (a :: l).getLast? = Option.or l.getLast? (some a) := by
  induction l generalizing a with
  | nil => rfl
  | cons b t ih =>
    rw [List.getLast?_cons_cons, ih b]
    cases t.getLast? <;> rfl

/-- C7: `normalize_connection_level` is idempotent; applying the
connection-level canonicalization twice (including to the null and empty
inputs) yields the same result as applying it once. -/
theorem normalize_connection_level_idem (x : Option String) :
    normalize_connection_level (normalize_connection_level x) =
      normalize_connection_level x := by
  match x with
  | none => rfl
  | some s =>
    by_cases hs : s = ""
    · simp [normalize_connection_level, hs]
    · rcases hf : CONNECTION_MAPPING.find? (fun p => p.1 = s) with _ | p
      · simp [normalize_connection_level, hs, hf]
      · have hp : p ∈ CONNECTION_MAPPING := List.mem_of_find?_eq_some hf
        have hp2 : p.2 = "Connexion EDI" := by
          simp [CONNECTION_MAPPING] at hp
          rcases hp with h | h | h | h | h <;> simp [h]
        have hedi : normalize_connection_level (some ("Connexion EDI")) =
            some ("Connexion EDI") := by decide
        have h1 : normalize_connection_level (some s) = some p.2 := by
          simp [normalize_connection_level, hs, hf]
        rw [h1, hp2, hedi]

/-- Replacing the bindings at key `k` does not disturb lookups at other keys,
since the update preserves every pair's key. -/
theorem dictLookup_map_update (ps : List (Cell × Cell)) (k v k' : Cell) (hne : k' ≠ k) :
    dictLookup (ps.map (fun p => if p.1 = k then (k, v) else p)) k' = dictLookup ps k' := by
  induction ps with
  | nil => rfl
  | cons p ps ih =>
    unfold dictLookup
    by_cases hp : p.1 = k
    · rw [List.map_cons, if_pos hp,
        List.find?_cons_of_neg _ (by simp; exact fun h => hne h.symm),
        List.find?_cons_of_neg _ (by simp; exact fun h => hne (h.symm.trans hp))]
      exact ih
    · rw [List.map_cons, if_neg hp]
      by_cases h2 : p.1 = k'
      · rw [List.find?_cons_of_pos _ (by simpa using h2),
          List.find?_cons_of_pos _ (by simpa using h2)]
      · rw [List.find?_cons_of_neg _ (by simpa using h2),
          List.find?_cons_of_neg _ (by simpa using h2)]
        exact ih

/-- Overwriting an already-present key: looking it up yields the new value. -/
theorem dictLookup_map_update_self (ps : List (Cell × Cell)) (k v : Cell)
    (hany : ps.any (fun p => p.1 = k) = true) :
    dictLookup (ps.map (fun p => if p.1 = k then (k, v) else p)) k = some v := by
  induction ps with
  | nil => simp at hany
  | cons p ps ih =>
    unfold dictLookup
    by_cases hp : p.1 = k
    · rw [List.map_cons, if_pos hp, List.find?_cons_of_pos _ (by simp)]
      rfl
    · rw [List.map_cons, if_neg hp, List.find?_cons_of_neg _ (by simpa using hp)]
      have hany2 : ps.any (fun p => p.1 = k) = true := by
        simpa [List.any_cons, hp] using hany
      exact ih hany2

/-- Appending a fresh binding: looking up its key yields its value when no
earlier binding matched. -/
theorem dictLookup_append_self (d : List (Cell × Cell)) (k v : Cell)
    (hany : d.any (fun p => p.1 = k) = false) :
    dictLookup (d ++ [(k, v)]) k = some v := by
  induction d with
  | nil => simp [dictLookup, List.find?]
  | cons p ps ih =>
    simp only [List.any_cons, Bool.or_eq_false_iff] at hany
    unfold dictLookup
    rw [List.cons_append, List.find?_cons_of_neg _ (by simpa using hany.1)]
    exact ih hany.2

/-- Appending a binding for `k` leaves lookups at other keys unchanged. -/
theorem dictLookup_append_other (d : List (Cell × Cell)) (k v k' : Cell) (hne : k' ≠ k) :
    dictLookup (d ++ [(k, v)]) k' = dictLookup d k' := by
  induction d with
  | nil =>
    unfold dictLookup
    rw [List.nil_append, List.find?_cons_of_neg _ (by simp; exact fun h => hne h.symm)]
  | cons p ps ih =>
    unfold dictLookup
    by_cases h2 : p.1 = k'
    · rw [List.cons_append, List.find?_cons_of_pos _ (by simpa using h2),
        List.find?_cons_of_pos _ (by simpa using h2)]
    · rw [List.cons_append, List.find?_cons_of_neg _ (by simpa using h2),
        List.find?_cons_of_neg _ (by simpa using h2)]
      exact ih

/-- Python `dict` assignment, lookup at the assigned key. -/
theorem dictLookup_insert_self (d : List (Cell × Cell)) (k v : Cell) :
    dictLookup (dictInsert d k v) k = some v := by
  unfold dictInsert
  by_cases hany : d.any (fun p => p.1 = k) = true
  · rw [if_pos hany]
    exact dictLookup_map_update_self d k v hany
  · rw [if_neg hany]
    exact dictLookup_append_self d k v (Bool.eq_false_iff.mpr hany)

/-- Python `dict` assignment, lookup at any other key. -/
theorem dictLookup_insert_other (d : List (Cell × Cell)) (k v k' : Cell) (hne : k' ≠ k) :
    dictLookup (dictInsert d k v) k' = dictLookup d k' := by
  unfold dictInsert
  by_cases hany : d.any (fun p => p.1 = k) = true
  · rw [if_pos hany]
    exact dictLookup_map_update d k v k' hne
  · rw [if_neg hany]
    exact dictLookup_append_other d k v k' hne

/-- The errorless body of one `create_connection_dict` loop iteration,
available once `Nom` is a column of the frame. -/
def connectionPure (column_name : String) (acc : List (Cell × Cell)) (row : PdRow) :
    List (Cell × Cell) :=
  if PdRow.get row column_name ≠ Cell.na then
    dictInsert acc (PdRow.get row ("Nom")) (PdRow.get row column_name)
  else acc

/-- Once `Nom` is a column, a loop iteration cannot raise. -/
theorem connectionStep_ok (df : DataFrame) (col : String) (acc : List (Cell × Cell))
    (row : PdRow) (h : ("Nom") ∈ df.cols) :
    connectionStep df col acc row = .ok (connectionPure col acc row) := by
  unfold connectionStep DataFrame.item connectionPure
  rw [if_pos h]
  by_cases hna : PdRow.get row col ≠ Cell.na
  · simp [hna]
  · simp [hna]

/-- With `Nom` present, the whole fold succeeds and equals its pure version. -/
theorem create_connection_dict_eq_foldl (df : DataFrame) (col : String)
    (hcol : col ∈ df.cols) (hnom : ("Nom") ∈ df.cols) :
    create_connection_dict df col = .ok (df.rows.foldl (connectionPure col) []) := by
  unfold create_connection_dict
  rw [if_pos hcol]
  suffices h : ∀ (rows : List PdRow) (acc : List (Cell × Cell)),
      rows.foldlM (connectionStep df col) acc = .ok (rows.foldl (connectionPure col) acc) by
    exact h df.rows []
  intro rows
  induction rows with
  | nil => intro acc; rfl
  | cons r rs ih =>
    intro acc
    rw [List.foldlM_cons, connectionStep_ok df col acc r hnom]
    simpa using ih (connectionPure col acc r)

/-- The last non-NA value of `column_name` among a list of rows with `Nom = k`. -/
def rowsLastNonNull (column_name : String) (k : Cell) (rows : List PdRow) : Option Cell :=
  ((rows.filter
      (fun r => PdRow.get r ("Nom") = k ∧ PdRow.get r column_name ≠ Cell.na)).map
    (fun r => PdRow.get r column_name)).getLast?

/-- Folding the loop body accumulates, per key, the last non-NA value (later
writes overwrite earlier ones). -/
theorem foldl_connectionPure_lookup (col : String) (k : Cell) :
    ∀ (rows : List PdRow) (acc : List (Cell × Cell)),
      dictLookup (rows.foldl (connectionPure col) acc) k =
        Option.or (rowsLastNonNull col k rows) (dictLookup acc k) := by
  intro rows
  induction rows with
  | nil => intro acc; rfl
  | cons r rs ih =>
    intro acc
    rw [List.foldl_cons, ih]
    by_cases hna : PdRow.get r col ≠ Cell.na
    · by_cases hk : PdRow.get r ("Nom") = k
      · have hstep : connectionPure col acc r =
            dictInsert acc k (PdRow.get r col) := by
          unfold connectionPure
          rw [if_pos hna, hk]
        rw [hstep]
        have hfil : (r :: rs).filter
            (fun r => PdRow.get r ("Nom") = k ∧ PdRow.get r col ≠ Cell.na) =
            r :: rs.filter (fun r => PdRow.get r ("Nom") = k ∧ PdRow.get r col ≠ Cell.na) := by
          rw [List.filter_cons_of_pos]
          simp [hk, hna]
        unfold rowsLastNonNull
        rw [hfil, List.map_cons, getLast?_cons_or, dictLookup_insert_self,
          Option.or_assoc]
        rcases h : rowsLastNonNull col k rs with _ | w
        · unfold rowsLastNonNull at h
          rw [h]
          rfl
        · unfold rowsLastNonNull at h
          rw [h]
          rfl
      · have hstep : connectionPure col acc r =
            dictInsert acc (PdRow.get r ("Nom")) (PdRow.get r col) := by
          unfold connectionPure
          rw [if_pos hna]
        rw [hstep, dictLookup_insert_other _ _ _ _ (fun h => hk h.symm)]
        have hfil : (r :: rs).filter
            (fun r => PdRow.get r ("Nom") = k ∧ PdRow.get r col ≠ Cell.na) =
            rs.filter (fun r => PdRow.get r ("Nom") = k ∧ PdRow.get r col ≠ Cell.na) := by
          rw [List.filter_cons_of_neg]
          simp [hk]
        unfold rowsLastNonNull
        rw [hfil]
    · have hstep : connectionPure col acc r = acc := by
        unfold connectionPure
        rw [if_neg hna]
      rw [hstep]
      have hfil : (r :: rs).filter
          (fun r => PdRow.get r ("Nom") = k ∧ PdRow.get r col ≠ Cell.na) =
          rs.filter (fun r => PdRow.get r ("Nom") = k ∧ PdRow.get r col ≠ Cell.na) := by
        rw [List.filter_cons_of_neg]
        simp [hna]
      unfold rowsLastNonNull
      rw [hfil]

/-- A frame with one project name occurring on two rows, both with non-null
values for the target column. -/
def connDupDf : DataFrame :=
  ⟨[("Nom"), ("Niveau de connexion")],
   [[(("Nom"), Cell.str ("P1")), (("Niveau de connexion"), Cell.str ("A"))],
    [(("Nom"), Cell.str ("P1")), (("Niveau de connexion"), Cell.str ("B"))]]⟩

/-- C3 counterexample: on a table where the same name has the non-null values
`A` then `B`, `create_connection_dict` maps the name to `B`, the LAST
non-null value, not the first one the claim predicts. -/
theorem create_connection_dict_not_first_nonnull :
    create_connection_dict connDupDf ("Niveau de connexion") =
      .ok [(Cell.str ("P1"), Cell.str ("B"))] ∧
    firstNonNull connDupDf ("Niveau de connexion") (Cell.str ("P1")) =
      some (Cell.str ("A")) ∧
    Cell.str ("B") ≠ Cell.str ("A") :=
  ⟨rfl, rfl, by decide⟩

/-- C3 (amended): with the target column and `Nom` in the schema,
`create_connection_dict` maps each project name to its LAST non-null value in
source row order: a later non-null value always replaces an earlier one, and
null values never overwrite anything. -/
theorem create_connection_dict_last_nonnull (df : DataFrame) (col : String)
    (hcol : col ∈ df.cols) (hnom : ("Nom") ∈ df.cols) :
    ∃ d, create_connection_dict df col = .ok d ∧
      ∀ k, dictLookup d k = lastNonNull df col k := by
  refine ⟨df.rows.foldl (connectionPure col) [],
    create_connection_dict_eq_foldl df col hcol hnom, ?_⟩
  intro k
  rw [foldl_connectionPure_lookup]
  show Option.or (rowsLastNonNull col k df.rows) none = _
  rw [Option.or_none]
  rfl

/-- Witness for the amended C3 theorem at a concrete frame. -/
theorem create_connection_dict_last_nonnull_witness :
    ∃ d, create_connection_dict connDupDf ("Niveau de connexion") = .ok d ∧
      ∀ k, dictLookup d k = lastNonNull connDupDf ("Niveau de connexion") k :=
  create_connection_dict_last_nonnull connDupDf ("Niveau de connexion")
    (by decide) (by decide)

/-- C9: when the target column is in the schema but `Nom` is not and the table
has at least one row, `create_connection_dict` raises `KeyError`. -/
theorem create_connection_dict_keyerror (df : DataFrame) (col : String)
    (hcol : col ∈ df.cols) (hnom : ("Nom") ∉ df.cols) (hrows : df.rows ≠ []) :
    create_connection_dict df col = .error .keyError := by
  unfold create_connection_dict
  rw [if_pos hcol]
  rcases hr : df.rows with _ | ⟨r, rs⟩
  · exact absurd hr hrows
  · rw [List.foldlM_cons]
    have hstep : connectionStep df col [] r = .error .keyError := by
      unfold connectionStep DataFrame.item
      rw [if_neg hnom]
      rfl
    rw [hstep]
    rfl

/-- A one-row frame that has the target column but no `Nom` column. -/
def noNomDf : DataFrame := ⟨[("X")], [[(("X"), Cell.str ("a"))]]⟩

/-- Witness for the C9 theorem at a concrete frame. -/
theorem create_connection_dict_keyerror_witness :
    create_connection_dict noNomDf ("X") = .error .keyError :=
  create_connection_dict_keyerror noNomDf ("X") (by decide) (by decide) (by decide)

/-- Sort rank of a cell constructor, used for ordering mixed columns:
numbers, then strings, then dates, with missing values last (pandas sorts
`NaN` last by default). -/
def Cell.rank : Cell → Nat
  | .num _ => 0
  | .str _ => 1
  | .date _ => 2
  | .na => 3

/-- Lexicographic comparison of character lists by code point (an executable
rendering of string order that the kernel can evaluate). -/
def charListLe : List Char → List Char → Bool
  | [], _ => true
  | _ :: _, [] => false
  | c :: cs, d :: ds =>
    if c.toNat < d.toNat then true
    else if d.toNat < c.toNat then false
    else charListLe cs ds

/-- Lexicographic string comparison by code point. -/
def strLeB (s t : String) : Bool := charListLe s.data t.data

theorem charListLe_total : ∀ (a b : List Char),
    charListLe a b = true ∨ charListLe b a = true
  | [], _ => Or.inl rfl
  | _ :: _, [] => Or.inr rfl
  | x :: xs, y :: ys => by
    rcases Nat.lt_trichotomy x.toNat y.toNat with hxy | hxy | hxy
    · exact Or.inl (by simp only [charListLe]; rw [if_pos hxy])
    · rcases charListLe_total xs ys with h | h
      · refine Or.inl ?_
        simp only [charListLe]
        rw [if_neg (by omega), if_neg (by omega)]
        exact h
      · refine Or.inr ?_
        simp only [charListLe]
        rw [if_neg (by omega), if_neg (by omega)]
        exact h
    · exact Or.inr (by simp only [charListLe]; rw [if_pos hxy])

theorem charListLe_trans : ∀ (a b c : List Char), charListLe a b = true →
    charListLe b c = true → charListLe a c = true
  | [], _, _, _, _ => rfl
  | _ :: _, [], _, h1, _ => by simp [charListLe] at h1
  | _ :: _, _ :: _, [], _, h2 => by simp [charListLe] at h2
  | x :: xs, y :: ys, z :: zs, h1, h2 => by
    simp only [charListLe] at h1 h2 ⊢
    rcases Nat.lt_trichotomy x.toNat y.toNat with hxy | hxy | hxy
    · rcases Nat.lt_trichotomy y.toNat z.toNat with hyz | hyz | hyz
      · rw [if_pos (by omega)]
      · rw [if_pos (by omega)]
      · rw [if_neg (by omega), if_pos hyz] at h2
        exact absurd h2 (by simp)
    · rw [if_neg (by omega), if_neg (by omega)] at h1
      rcases Nat.lt_trichotomy y.toNat z.toNat with hyz | hyz | hyz
      · rw [if_pos (by omega)]
      · rw [if_neg (by omega), if_neg (by omega)] at h2
        rw [if_neg (by omega), if_neg (by omega)]
        exact charListLe_trans xs ys zs h1 h2
      · rw [if_neg (by omega), if_pos hyz] at h2
        exact absurd h2 (by simp)
    · rw [if_neg (by omega), if_pos hxy] at h1
      exact absurd h1 (by simp)

theorem strLeB_total (s t : String) : strLeB s t = true ∨ strLeB t s = true :=
  charListLe_total s.data t.data

theorem strLeB_trans (s t u : String) (h1 : strLeB s t = true) (h2 : strLeB t u = true) :
    strLeB s u = true :=
  charListLe_trans s.data t.data u.data h1 h2

/-- Total comparison of cells: payload order within a constructor, rank order
across constructors. -/
def cellLeB : Cell → Cell → Bool
  | .num p, .num q => p ≤ q
  | .str s, .str t => strLeB s t
  | .date y, .date z => y ≤ z
  | a, b => a.rank ≤ b.rank

theorem cellLeB_total (a b : Cell) : cellLeB a b = true ∨ cellLeB b a = true := by
  cases a <;> cases b <;> simp [cellLeB, Cell.rank] <;>
    first
      | exact le_total _ _
      | exact strLeB_total _ _

theorem cellLeB_trans (a b c : Cell) (h1 : cellLeB a b = true) (h2 : cellLeB b c = true) :
    cellLeB a c = true := by
  cases a <;> cases b <;> cases c <;>
    simp [cellLeB, Cell.rank] at h1 h2 ⊢ <;>
    first
      | exact le_trans h1 h2
      | exact strLeB_trans _ _ _ h1 h2

/-- A working row of `create_projects_by_month_summary` after the column
projection of src line 170, accreting the derived `Date effective` column. -/
structure MRow where
  nom : Cell
  da : Cell
  phase : Cell
  dc : Cell
  dn : Cell
  eff : Cell
  annee : Cell := Cell.na
deriving DecidableEq, Repr

instance : Inhabited Cell := ⟨Cell.na⟩

/-- A row of the year summary after year extraction (src lines 196-206):
year, per-year project count, project name, last note. -/
structure TRow where
  year : Int
  count : Nat
  nom : Cell
  note : Cell
deriving DecidableEq, Repr, Inhabited

/-- A row of the final year-summary output, in output column order
(src line 223): year, project count, project name, last note. -/
structure ORow where
  annee : Cell
  nombre : Cell
  nomProjet : Cell
  derniereNote : Cell
deriving DecidableEq, Repr

/-- Sort key of src line 203: year ascending, then project name ascending. -/
def trowLe (a b : TRow) : Prop :=
  (a.year < b.year || (a.year = b.year && cellLeB a.nom b.nom)) = true

instance : DecidableRel trowLe := fun a b =>
  inferInstanceAs (Decidable ((a.year < b.year || (a.year = b.year && cellLeB a.nom b.nom)) = true))

instance : IsTotal TRow trowLe := by
  constructor
  intro a b
  unfold trowLe
  rcases lt_trichotomy a.year b.year with h | h | h
  · left
    simp [h]
  · rcases cellLeB_total a.nom b.nom with hc | hc
    · left
      simp [h, hc]
    · right
      simp [h.symm, hc]
  · right
    simp [h]

instance : IsTrans TRow trowLe := by
  constructor
  intro a b c h1 h2
  unfold trowLe at h1 h2 ⊢
  simp only [Bool.or_eq_true, Bool.and_eq_true, decide_eq_true_eq] at h1 h2 ⊢
  rcases h1 with h1 | ⟨h1, h1c⟩ <;> rcases h2 with h2 | ⟨h2, h2c⟩
  · exact Or.inl (lt_trans h1 h2)
  · exact Or.inl (h2 ▸ h1)
  · exact Or.inl (h1 ▸ h2)
  · exact Or.inr ⟨h1.trans h2, cellLeB_trans _ _ _ h1c h2c⟩

/-- Default allowed phases of src lines 152-159. -/
def DEFAULT_ALLOWED_PHASES : List String :=
  [("Cadrage / Spécifications"), ("Recette interne"), ("Développement"),
   ("Recette utilisateur"), ("Non démarré (nouveau projet)"), ("Pré-production")]

/-- Resolve the allowed-phase list: the caller-supplied non-empty list, or the
fixed default (src lines 151-161). -/
def allowedPhases (phases_checked : Option (List String)) : List String :=
  match phases_checked with
  | none => DEFAULT_ALLOWED_PHASES
  | some l => if l = [] then DEFAULT_ALLOWED_PHASES else l

/-- Project a raw row onto the needed columns (src lines 164-170); the
fallback columns are read only when present in the schema. -/
def projectCols (hasDC hasDN : Bool) (r : PdRow) : MRow :=
  { nom := PdRow.get r ("Nom"),
    da := PdRow.get r ("Date d\x27affectation"),
    phase := PdRow.get r ("Phase du projet"),
    dc := if hasDC then PdRow.get r ("Date de création") else Cell.na,
    dn := if hasDN then PdRow.get r ("Dernière Note") else Cell.na,
    eff := Cell.na }

/-- `isin(allowed_phases)` on a cell (src line 171). -/
def phaseIn (allowed : List String) (c : Cell) : Bool :=
  match c with
  | .str p => allowed.contains p
  | _ => false

/-- `Date effective` assignment with creation-date fallback (src lines 174-180):
the effective date is the assignment date, replaced by the creation date
exactly when the assignment date is NA and the creation date is not. -/
def stepEff (hasDC : Bool) (r : MRow) : MRow :=
  { r with eff := if hasDC ∧ r.da = Cell.na ∧ r.dc ≠ Cell.na then r.dc else r.da }

/-- `pd.to_datetime(col, errors='coerce')` on the effective date
(src line 189): parseable dates survive, everything else becomes NaT. -/
def coerceDate (r : MRow) : MRow :=
  { r with eff := match r.eff with
                  | .date y => Cell.date y
                  | _ => Cell.na }

/-- Rows after the phase filter of src line 171. -/
def workingRows (df : DataFrame) (allowed : List String) : List MRow :=
  (df.rows.map (projectCols (("Date de création") ∈ df.cols)
      (("Dernière Note") ∈ df.cols))).filter
    (fun r => phaseIn allowed r.phase)

/-- Rows after effective-date assignment and the first `dropna`
(src lines 174-183). -/
def datedRows (df : DataFrame) (allowed : List String) : List MRow :=
  ((workingRows df allowed).map (stepEff (("Date de création") ∈ df.cols))).filter
    (fun r => r.eff ≠ Cell.na)

/-- Rows after date parsing and the second `dropna` (src lines 189-190). -/
def parsedRows (df : DataFrame) (allowed : List String) : List MRow :=
  ((datedRows df allowed).map coerceDate).filter (fun r => r.eff ≠ Cell.na)

/-- Year extraction (src line 196) for a surviving row. -/
def toTRow (r : MRow) : Option TRow :=
  match r.eff with
  | .date y => some ⟨y, 0, r.nom, r.dn⟩
  | _ => none

/-- The filtered-and-dated rows, sorted by (year, project name)
(src lines 196-203). -/
def yearRows (df : DataFrame) (allowed : List String) : List TRow :=
  List.insertionSort trowLe ((parsedRows df allowed).filterMap toTRow)

/-- Per-year project count over the filtered-and-dated set (src line 206). -/
def countedRows (df : DataFrame) (allowed : List String) : List TRow :=
  (yearRows df allowed).map
    (fun t => { t with
      count := (yearRows df allowed).countP (fun u => u.year = t.year) })

/-- Blank project name and last note on every 2024/2025 row (src lines 208-211). -/
def blankedRows (df : DataFrame) (allowed : List String) : List TRow :=
  (countedRows df allowed).map
    (fun t => if t.year = 2024 ∨ t.year = 2025 then
        { t with nom := Cell.str (""), note := Cell.str ("") }
      else t)

/-- Display form of row `i`: year and count survive only on the first row of
each year group, i.e. when no earlier row has the same year (src lines
214-220: the loop over unique years blanks all but the first occurrence). -/
def collapseRow (l : List TRow) (i : Nat) : ORow :=
  let t := l.getD i default
  if ((l.take i).map TRow.year).contains t.year then
    ⟨Cell.str (""), Cell.str (""), t.nom, t.note⟩
  else
    ⟨Cell.num (t.year : ℚ), Cell.num ((t.count : ℚ)), t.nom, t.note⟩

/-- The final year-summary table in output column order (src lines 214-223). -/
def collapsedRows (df : DataFrame) (allowed : List String) : List ORow :=
  (List.range (blankedRows df allowed).length).map
    (collapseRow (blankedRows df allowed))

/-- `DataProcessor.create_projects_by_month_summary` (src lines 132-225).
Returns the empty fixed-schema table when the assignment-date column is
absent; raises `KeyError` when the column selections of src lines 170 and
199 meet an absent column; returns the empty table at the early-exit checks
of src lines 185 and 192; otherwise builds the year summary. -/
def create_projects_by_month_summary (df : DataFrame)
    (phases_checked : Option (List String)) : Except PyErr (List ORow) :=
  if ("Date d\x27affectation") ∈ df.cols then
    if ("Nom") ∈ df.cols ∧ ("Phase du projet") ∈ df.cols then
      if datedRows df (allowedPhases phases_checked) = [] then .ok []
      else if parsedRows df (allowedPhases phases_checked) = [] then .ok []
      else if ("Dernière Note") ∈ df.cols then
        .ok (collapsedRows df (allowedPhases phases_checked))
      else .error .keyError
    else .error .keyError
  else .ok []

/-- A frame that has the assignment-date column but no `Nom` column. -/
def dateOnlyDf : DataFrame := ⟨[("Date d\x27affectation")], []⟩

/-- C4 counterexample: on a frame that has `Date d\x27affectation` but lacks
`Nom` and `Phase du projet`, `create_projects_by_month_summary` raises
`KeyError` (at the column selection of src line 170) instead of handling the
absence without an exception. -/
theorem create_projects_missing_nom_raises :
    create_projects_by_month_summary dateOnlyDf none = .error .keyError := rfl

/-- C4 (amended): when the assignment-date column is absent the function
immediately returns the empty fixed-schema result; but the no-exception
guarantee only holds for the other columns it selects: with
`Date d\x27affectation` present and `Nom` or `Phase du projet` absent it
raises `KeyError`, and it never raises when `Nom`, `Phase du projet` and
`Dernière Note` are all present. -/
theorem create_projects_column_guards (df : DataFrame) (pc : Option (List String)) :
    (("Date d\x27affectation") ∉ df.cols →
      create_projects_by_month_summary df pc = .ok []) ∧
    (("Date d\x27affectation") ∈ df.cols →
      ¬ (("Nom") ∈ df.cols ∧ ("Phase du projet") ∈ df.cols) →
      create_projects_by_month_summary df pc = .error .keyError) ∧
    (("Nom") ∈ df.cols → ("Phase du projet") ∈ df.cols → ("Dernière Note") ∈ df.cols →
      ∃ out, create_projects_by_month_summary df pc = .ok out) := by
  refine ⟨?_, ?_, ?_⟩
  · intro hda
    unfold create_projects_by_month_summary
    rw [if_neg hda]
  · intro hda hnp
    unfold create_projects_by_month_summary
    rw [if_pos hda, if_neg hnp]
  · intro hn hp hdn
    unfold create_projects_by_month_summary
    by_cases hda : ("Date d\x27affectation") ∈ df.cols
    · rw [if_pos hda, if_pos ⟨hn, hp⟩]
      by_cases h3 : datedRows df (allowedPhases pc) = []
      · rw [if_pos h3]
        exact ⟨[], rfl⟩
      · rw [if_neg h3]
        by_cases h4 : parsedRows df (allowedPhases pc) = []
        · rw [if_pos h4]
          exact ⟨[], rfl⟩
        · rw [if_neg h4, if_pos hdn]
          exact ⟨_, rfl⟩
    · rw [if_neg hda]
      exact ⟨[], rfl⟩

/-- A frame with every column the year-summary builder selects. -/
def fullColsDf : DataFrame :=
  ⟨[("Nom"), ("Date d\x27affectation"), ("Phase du projet"), ("Dernière Note")],
   [[(("Nom"), Cell.str ("P")), (("Date d\x27affectation"), Cell.date 2024),
     (("Phase du projet"), Cell.str ("Développement")),
     (("Dernière Note"), Cell.str ("n"))]]⟩

/-- Witness for the amended C4 theorem at concrete frames. -/
theorem create_projects_column_guards_witness :
    create_projects_by_month_summary noNomDf none = .ok [] ∧
    ∃ out, create_projects_by_month_summary fullColsDf none = .ok out :=
  ⟨(create_projects_column_guards noNomDf none).1 (by decide),
   (create_projects_column_guards fullColsDf none).2.2 (by decide) (by decide) (by decide)⟩

/-- Every successful run returns either an early-exit empty table or the
collapsed display table. -/
theorem create_projects_ok_cases (df : DataFrame) (pc : Option (List String))
    (out : List ORow) (h : create_projects_by_month_summary df pc = .ok out) :
    out = [] ∨ out = collapsedRows df (allowedPhases pc) := by
  unfold create_projects_by_month_summary at h
  by_cases h1 : ("Date d\x27affectation") ∈ df.cols
  · rw [if_pos h1] at h
    by_cases h2 : (("Nom") ∈ df.cols ∧ ("Phase du projet") ∈ df.cols)
    · rw [if_pos h2] at h
      by_cases h3 : datedRows df (allowedPhases pc) = []
      · rw [if_pos h3] at h
        exact Or.inl (Except.ok.inj h).symm
      · rw [if_neg h3] at h
        by_cases h4 : parsedRows df (allowedPhases pc) = []
        · rw [if_pos h4] at h
          exact Or.inl (Except.ok.inj h).symm
        · rw [if_neg h4] at h
          by_cases h5 : ("Dernière Note") ∈ df.cols
          · rw [if_pos h5] at h
            exact Or.inr (Except.ok.inj h).symm
          · rw [if_neg h5] at h
            exact absurd h (by simp)
    · rw [if_neg h2] at h
      exact absurd h (by simp)
  · rw [if_neg h1] at h
    exact Or.inl (Except.ok.inj h).symm

/-- The number of rows sharing year `y` in the filtered-and-dated set. -/
def countFor (df : DataFrame) (a : List String) (y : Int) : Nat :=
  (yearRows df a).countP (fun u => u.year = y)

/-- The collapsed table exposes, at each index, the collapse of the blanked
table at that index. -/
theorem collapsedRows_getElem (df : DataFrame) (a : List String) (i : Nat)
    (hi : i < (blankedRows df a).length) :
    (collapsedRows df a)[i]? = some (collapseRow (blankedRows df a) i) := by
  unfold collapsedRows
  rw [List.getElem?_map, List.getElem?_range hi]
  rfl

/-- The counted table at index `i`, given the sorted table there. -/
theorem countedRows_getElem (df : DataFrame) (a : List String) (i : Nat) (t : TRow)
    (ht : (yearRows df a)[i]? = some t) :
    (countedRows df a)[i]? = some { t with count := countFor df a t.year } := by
  unfold countedRows countFor
  rw [List.getElem?_map, ht]
  rfl

/-- C5: in every successful year-summary output, a row whose effective year is
2024 or 2025 has blank project name and blank last note, regardless of its
position in its year group. -/
theorem create_projects_blank_2024_2025 (df : DataFrame) (pc : Option (List String))
    (out : List ORow) (i : Nat) (t : TRow) (o : ORow)
    (h : create_projects_by_month_summary df pc = .ok out)
    (ht : (yearRows df (allowedPhases pc))[i]? = some t)
    (ho : out[i]? = some o)
    (hy : t.year = 2024 ∨ t.year = 2025) :
    o.nomProjet = Cell.str ("") ∧ o.derniereNote = Cell.str ("") := by
  rcases create_projects_ok_cases df pc out h with rfl | rfl
  · simp at ho
  · have hc := countedRows_getElem df (allowedPhases pc) i t ht
    have hb : (blankedRows df (allowedPhases pc))[i]? =
        some { year := t.year, count := countFor df (allowedPhases pc) t.year,
               nom := Cell.str (""), note := Cell.str ("") } := by
      unfold blankedRows
      rw [List.getElem?_map, hc]
      rw [Option.map_some']
      rw [if_pos hy]
    have hilt : i < (blankedRows df (allowedPhases pc)).length := by
      rcases List.getElem?_eq_some.mp hb with ⟨hl, _⟩
      exact hl
    rw [collapsedRows_getElem df (allowedPhases pc) i hilt] at ho
    have ho2 : o = collapseRow (blankedRows df (allowedPhases pc)) i :=
      (Option.some.inj ho).symm
    have hgd : (blankedRows df (allowedPhases pc)).getD i default =
        { year := t.year, count := countFor df (allowedPhases pc) t.year,
          nom := Cell.str (""), note := Cell.str ("") } := by
      rw [List.getD_eq_getElem?_getD, hb]
      rfl
    rw [ho2]
    unfold collapseRow
    rw [hgd]
    by_cases hcont : (((blankedRows df (allowedPhases pc)).take i).map TRow.year).contains
        (TRow.mk t.year (countFor df (allowedPhases pc) t.year)
          (Cell.str ("")) (Cell.str (""))).year = true
    · rw [if_pos hcont]
      exact ⟨rfl, rfl⟩
    · rw [if_neg hcont]
      exact ⟨rfl, rfl⟩

/-- Witness for the C5 theorem at a concrete frame whose single row is dated
2024. -/
theorem create_projects_blank_2024_2025_witness :
    (ORow.mk (Cell.num 2024) (Cell.num 1) (Cell.str ("")) (Cell.str (""))).nomProjet =
      Cell.str ("") ∧
    (ORow.mk (Cell.num 2024) (Cell.num 1) (Cell.str ("")) (Cell.str (""))).derniereNote =
      Cell.str ("") :=
  create_projects_blank_2024_2025 fullColsDf none
    [ORow.mk (Cell.num 2024) (Cell.num 1) (Cell.str ("")) (Cell.str (""))] 0
    (TRow.mk 2024 0 (Cell.str ("P")) (Cell.str ("n")))
    (ORow.mk (Cell.num 2024) (Cell.num 1) (Cell.str ("")) (Cell.str ("")))
    rfl rfl rfl (Or.inl rfl)

/-- When the two early-exit checks fire, the sorted year table is empty too. -/
theorem yearRows_of_parsed_nil (df : DataFrame) (a : List String)
    (h : parsedRows df a = []) : yearRows df a = [] := by
  unfold yearRows
  rw [h]
  rfl

theorem parsed_of_dated_nil (df : DataFrame) (a : List String)
    (h : datedRows df a = []) : parsedRows df a = [] := by
  unfold parsedRows
  rw [h]
  rfl

/-- Refined case split of a successful run when the assignment-date column is
present: either the collapsed table is returned, or an early exit returned the
empty table and the filtered-and-dated set is itself empty. -/
theorem create_projects_ok_strong (df : DataFrame) (pc : Option (List String))
    (out : List ORow) (hda : ("Date d\x27affectation") ∈ df.cols)
    (h : create_projects_by_month_summary df pc = .ok out) :
    out = collapsedRows df (allowedPhases pc) ∨
      (out = [] ∧ yearRows df (allowedPhases pc) = []) := by
  unfold create_projects_by_month_summary at h
  rw [if_pos hda] at h
  by_cases h2 : (("Nom") ∈ df.cols ∧ ("Phase du projet") ∈ df.cols)
  · rw [if_pos h2] at h
    by_cases h3 : datedRows df (allowedPhases pc) = []
    · rw [if_pos h3] at h
      exact Or.inr ⟨(Except.ok.inj h).symm,
        yearRows_of_parsed_nil df _ (parsed_of_dated_nil df _ h3)⟩
    · rw [if_neg h3] at h
      by_cases h4 : parsedRows df (allowedPhases pc) = []
      · rw [if_pos h4] at h
        exact Or.inr ⟨(Except.ok.inj h).symm, yearRows_of_parsed_nil df _ h4⟩
      · rw [if_neg h4] at h
        by_cases h5 : ("Dernière Note") ∈ df.cols
        · rw [if_pos h5] at h
          exact Or.inl (Except.ok.inj h).symm
        · rw [if_neg h5] at h
          exact absurd h (by simp)
  · rw [if_neg h2] at h
    exact absurd h (by simp)

/-- The collapsed table has one display row per filtered-and-dated row. -/
theorem collapsedRows_length (df : DataFrame) (a : List String) :
    (collapsedRows df a).length = (yearRows df a).length := by
  unfold collapsedRows blankedRows countedRows
  simp [List.length_map, List.length_range]

/-- The year table is weakly sorted by year. -/
theorem yearRows_sorted (df : DataFrame) (a : List String) :
    List.Pairwise (fun u v : TRow => u.year ≤ v.year) (yearRows df a) := by
  have hs : List.Sorted trowLe (yearRows df a) :=
    List.sorted_insertionSort trowLe ((parsedRows df a).filterMap toTRow)
  refine hs.imp ?_
  intro u v huv
  unfold trowLe at huv
  simp only [Bool.or_eq_true, Bool.and_eq_true, decide_eq_true_eq] at huv
  rcases huv with h | ⟨h, _⟩
  · exact le_of_lt h
  · exact le_of_eq h

/-- Blanking 2024/2025 names and setting counts preserve each row's year. -/
theorem blankedRows_map_year (df : DataFrame) (a : List String) :
    (blankedRows df a).map TRow.year = (yearRows df a).map TRow.year := by
  unfold blankedRows countedRows
  rw [List.map_map, List.map_map]
  refine List.map_congr_left ?_
  intro t _
  by_cases hy : t.year = 2024 ∨ t.year = 2025
  · simp [hy]
  · simp [hy]

/-- C6: for every successful year-summary run (assignment-date column
present), the output has one row per filtered-and-dated row, the year table
is weakly sorted by year (year groups are contiguous), and the first row of
each year group carries the year and the count of that year over the
filtered-and-dated set while every later row of the group has both fields
blank. -/
theorem create_projects_year_groups (df : DataFrame) (pc : Option (List String))
    (out : List ORow) (hda : ("Date d\x27affectation") ∈ df.cols)
    (h : create_projects_by_month_summary df pc = .ok out) :
    out.length = (yearRows df (allowedPhases pc)).length ∧
    List.Pairwise (fun u v : TRow => u.year ≤ v.year) (yearRows df (allowedPhases pc)) ∧
    ∀ i t o, (yearRows df (allowedPhases pc))[i]? = some t → out[i]? = some o →
      ((((yearRows df (allowedPhases pc)).take i).map TRow.year).contains t.year = false →
        o.annee = Cell.num ((t.year : ℚ)) ∧
        o.nombre = Cell.num ((countFor df (allowedPhases pc) t.year : ℚ))) ∧
      ((((yearRows df (allowedPhases pc)).take i).map TRow.year).contains t.year = true →
        o.annee = Cell.str ("") ∧ o.nombre = Cell.str ("")) := by
  rcases create_projects_ok_strong df pc out hda h with rfl | ⟨rfl, hyr⟩
  · refine ⟨collapsedRows_length df _, yearRows_sorted df _, ?_⟩
    intro i t o ht ho
    have hc := countedRows_getElem df (allowedPhases pc) i t ht
    have hbt : ∃ bt : TRow, (blankedRows df (allowedPhases pc))[i]? = some bt ∧
        bt.year = t.year ∧ bt.count = countFor df (allowedPhases pc) t.year := by
      by_cases hy : t.year = 2024 ∨ t.year = 2025
      · refine ⟨TRow.mk t.year (countFor df (allowedPhases pc) t.year)
          (Cell.str ("")) (Cell.str ("")), ?_, rfl, rfl⟩
        unfold blankedRows
        rw [List.getElem?_map, hc, Option.map_some']
        rw [if_pos hy]
      · refine ⟨TRow.mk t.year (countFor df (allowedPhases pc) t.year) t.nom t.note,
          ?_, rfl, rfl⟩
        unfold blankedRows
        rw [List.getElem?_map, hc, Option.map_some']
        rw [if_neg hy]
    rcases hbt with ⟨bt, hb, hbyear, hbcount⟩
    have hilt : i < (blankedRows df (allowedPhases pc)).length := by
      rcases List.getElem?_eq_some.mp hb with ⟨hl, _⟩
      exact hl
    rw [collapsedRows_getElem df (allowedPhases pc) i hilt] at ho
    have ho2 : o = collapseRow (blankedRows df (allowedPhases pc)) i :=
      (Option.some.inj ho).symm
    have hgd : (blankedRows df (allowedPhases pc)).getD i default = bt := by
      rw [List.getD_eq_getElem?_getD, hb]
      rfl
    have hcond : (((blankedRows df (allowedPhases pc)).take i).map TRow.year).contains bt.year =
        (((yearRows df (allowedPhases pc)).take i).map TRow.year).contains t.year := by
      rw [hbyear, List.map_take, blankedRows_map_year, ← List.map_take]
    constructor
    · intro hfalse
      rw [ho2]
      unfold collapseRow
      rw [hgd, if_neg (by rw [hcond, hfalse]; exact Bool.false_ne_true)]
      exact ⟨by rw [hbyear], by rw [hbcount]⟩
    · intro htrue
      rw [ho2]
      unfold collapseRow
      rw [hgd, if_pos (by rw [hcond, htrue])]
      exact ⟨rfl, rfl⟩
  · refine ⟨by rw [hyr]; rfl, by rw [hyr]; exact List.Pairwise.nil, ?_⟩
    intro i t o ht ho
    rw [hyr] at ht
    simp at ht

/-- A frame with two 2023 projects and one 2022 project, all in an allowed
phase. -/
def threeYearDf : DataFrame :=
  ⟨[("Nom"), ("Date d\x27affectation"), ("Phase du projet"), ("Dernière Note")],
   [[(("Nom"), Cell.str ("B")), (("Date d\x27affectation"), Cell.date 2023),
     (("Phase du projet"), Cell.str ("Développement")), (("Dernière Note"), Cell.str ("nB"))],
    [(("Nom"), Cell.str ("A")), (("Date d\x27affectation"), Cell.date 2023),
     (("Phase du projet"), Cell.str ("Développement")), (("Dernière Note"), Cell.str ("nA"))],
    [(("Nom"), Cell.str ("C")), (("Date d\x27affectation"), Cell.date 2022),
     (("Phase du projet"), Cell.str ("Développement")), (("Dernière Note"), Cell.str ("nC"))]]⟩

/-- Witness for the C6 theorem: on `threeYearDf` the first 2023 row carries the
year and the count 2, and the second 2023 row has both fields blank. -/
theorem create_projects_year_groups_witness :
    ((ORow.mk (Cell.num 2023) (Cell.num 2) (Cell.str ("A")) (Cell.str ("nA"))).annee =
        Cell.num ((((2023 : Int)) : ℚ)) ∧
      (ORow.mk (Cell.num 2023) (Cell.num 2) (Cell.str ("A")) (Cell.str ("nA"))).nombre =
        Cell.num ((countFor threeYearDf (allowedPhases none) 2023 : ℚ))) ∧
    ((ORow.mk (Cell.str ("")) (Cell.str ("")) (Cell.str ("B")) (Cell.str ("nB"))).annee =
        Cell.str ("") ∧
      (ORow.mk (Cell.str ("")) (Cell.str ("")) (Cell.str ("B")) (Cell.str ("nB"))).nombre =
        Cell.str ("")) := by
  have h := create_projects_year_groups threeYearDf none
    [ORow.mk (Cell.num 2022) (Cell.num 1) (Cell.str ("C")) (Cell.str ("nC")),
     ORow.mk (Cell.num 2023) (Cell.num 2) (Cell.str ("A")) (Cell.str ("nA")),
     ORow.mk (Cell.str ("")) (Cell.str ("")) (Cell.str ("B")) (Cell.str ("nB"))]
    (by decide) (by rfl)
  exact ⟨(h.2.2 1 (TRow.mk 2023 0 (Cell.str ("A")) (Cell.str ("nA")))
      (ORow.mk (Cell.num 2023) (Cell.num 2) (Cell.str ("A")) (Cell.str ("nA")))
      (by rfl) (by rfl)).1 (by rfl),
    (h.2.2 2 (TRow.mk 2023 0 (Cell.str ("B")) (Cell.str ("nB")))
      (ORow.mk (Cell.str ("")) (Cell.str ("")) (Cell.str ("B")) (Cell.str ("nB")))
      (by rfl) (by rfl)).2 (by rfl)⟩

theorem charListLe_antisymm : ∀ (a b : List Char), charListLe a b = true →
    charListLe b a = true → a = b
  | [], [], _, _ => rfl
  | [], _ :: _, _, h2 => by simp [charListLe] at h2
  | _ :: _, [], h1, _ => by simp [charListLe] at h1
  | x :: xs, y :: ys, h1, h2 => by
    simp only [charListLe] at h1 h2
    rcases Nat.lt_trichotomy x.toNat y.toNat with hxy | hxy | hxy
    · rw [if_neg (by omega), if_pos hxy] at h2
      exact absurd h2 (by simp)
    · rw [if_neg (by omega), if_neg (by omega)] at h1 h2
      have hx : x = y := by
        have hv : x.val = y.val := UInt32.toNat.inj hxy
        exact Char.eq_of_val_eq hv
      rw [hx, charListLe_antisymm xs ys h1 h2]
    · rw [if_neg (by omega), if_pos hxy] at h1
      exact absurd h1 (by simp)

theorem strLeB_antisymm (s t : String) (h1 : strLeB s t = true) (h2 : strLeB t s = true) :
    s = t := by
  have hd : s.data = t.data := charListLe_antisymm s.data t.data h1 h2
  exact congrArg String.mk hd

theorem strLeB_refl (s : String) : strLeB s s = true := by
  unfold strLeB
  induction s.data with
  | nil => rfl
  | cons c cs ih =>
    simp only [charListLe]
    rw [if_neg (by omega), if_neg (by omega)]
    exact ih

/-- A row of the resource-by-project pivot table consumed by
`format_resource_summary`: resource name, project name, charge JH, and the
pass-through columns montant, last note, duration. -/
structure PivotRow where
  ressource : String
  projet : String
  charge : Option ℚ
  montant : Cell
  derniereNote : Cell
  duree : Cell
deriving DecidableEq, Repr

/-- The sort key of src line 310: resource ascending, then project ascending. -/
def pivotLe (a b : PivotRow) : Prop :=
  (if a.ressource = b.ressource then strLeB a.projet b.projet
   else strLeB a.ressource b.ressource) = true

instance : DecidableRel pivotLe := fun a b =>
  inferInstanceAs (Decidable (_ = true))

instance : IsTotal PivotRow pivotLe := by
  constructor
  intro a b
  unfold pivotLe
  by_cases h : a.ressource = b.ressource
  · rw [if_pos h, if_pos h.symm]
    exact strLeB_total a.projet b.projet
  · rw [if_neg h, if_neg (fun hh => h hh.symm)]
    exact strLeB_total a.ressource b.ressource

instance : IsTrans PivotRow pivotLe := by
  constructor
  intro a b c h1 h2
  unfold pivotLe at h1 h2 ⊢
  by_cases hab : a.ressource = b.ressource <;> by_cases hbc : b.ressource = c.ressource
  · rw [if_pos hab] at h1
    rw [if_pos hbc] at h2
    rw [if_pos (hab.trans hbc)]
    exact strLeB_trans _ _ _ h1 h2
  · rw [if_neg (fun h => hbc (hab.symm.trans h))]
    rw [if_neg hbc] at h2
    rw [hab]
    exact h2
  · rw [if_neg (fun h => hab (h.trans hbc.symm))]
    rw [if_neg hab] at h1
    rw [← hbc]
    exact h1
  · rw [if_neg hab] at h1
    rw [if_neg hbc] at h2
    by_cases hac : a.ressource = c.ressource
    · exact absurd (strLeB_antisymm _ _ h1 (hac ▸ h2)) hab
    · rw [if_neg hac]
      exact strLeB_trans _ _ _ h1 h2

/-- `pivot_df.sort_values(['Ressource', 'Projet'])` (src line 310). -/
def sortPivot (l : List PivotRow) : List PivotRow := List.insertionSort pivotLe l

/-- Python `dict.get(project, '')` on a name-keyed string mapping
(src lines 321-322 and 360-361). -/
def lookupD (d : List (String × String)) (k : String) : String :=
  ((d.find? (fun p => p.1 = k)).map Prod.snd).getD ("")

/-- The theoretical charge the builder computes for a project: both looked-up
labels must be truthy (non-empty), then the resolver of src line 327 runs. -/
def resolveTheo (cd ph : List (String × String)) (rules : Rules) (projet : String) :
    Option ℚ :=
  if lookupD cd projet ≠ "" ∧ lookupD ph projet ≠ "" then
    calculate_theoretical_charge rules (some (lookupD cd projet)) (some (lookupD ph projet))
  else none

/-- A row of the hierarchical resource summary (the columns of src lines
301-304); `none` / `Cell.na` stand for cells `.loc` never set. -/
structure SRow where
  rp : Option String := none
  chargeJH : Option ℚ := none
  sommeCharge : Option ℚ := none
  niveau : Option String := none
  phase : Option String := none
  chargeTheo : Option ℚ := none
  ecart : Option ℚ := none
  montant : Cell := Cell.na
  derniereNote : Cell := Cell.na
  duree : Cell := Cell.na
deriving DecidableEq, Repr

/-- `pivot_df[pivot_df['Ressource'] == resource]['Charge JH'].sum()`
(src line 348): the NA-skipping column sum over one resource's rows. -/
def chargeSum (rows : List PivotRow) (res : String) : ℚ :=
  ((rows.filter (fun r => r.ressource = res)).map (fun r => r.charge.getD 0)).sum

/-- The resource header row emitted at each group boundary
(src lines 346-357). -/
def resRowOf (sorted : List PivotRow) (res : String) : SRow :=
  { rp := some res, sommeCharge := some (chargeSum sorted res) }

/-- The per-project detail row (src lines 359-381): indentation-marked name,
charge, looked-up labels, pass-through cells, and — when the theoretical
charge resolves — the theoretical charge and the ecart (theoretical minus
charge JH; an NA charge leaves the ecart cell NaN, i.e. unset). -/
def projRowOf (cd ph : List (String × String)) (rules : Rules) (r : PivotRow) : SRow :=
  { rp := some ((("    ") ++ r.projet)),
    chargeJH := r.charge,
    niveau := some (lookupD cd r.projet),
    phase := some (lookupD ph r.projet),
    chargeTheo := resolveTheo cd ph rules r.projet,
    ecart := match resolveTheo cd ph rules r.projet, r.charge with
             | some t, some c => some (t - c)
             | _, _ => none,
    montant := r.montant,
    derniereNote := r.derniereNote,
    duree := r.duree }

/-- The first pass of src lines 312-334: per-resource ecart lists.  With the
emission of the `Somme des Ecarts` column removed (src line 354), this
accumulation no longer influences the output; it is kept here as the same
dead computation. -/
def resource_ecarts (sorted : List PivotRow) (cd ph : List (String × String))
    (rules : Rules) (res : String) : List (Option ℚ) :=
  (sorted.filter (fun r => r.ressource = res)).filterMap
    (fun r => match resolveTheo cd ph rules r.projet with
              | some t => some (r.charge.map (fun c => t - c))
              | none => none)

/-- The emission loop of src lines 337-383, with `current_resource` as the
state: a resource header row precedes the first project row of each new
resource. -/
def emitRows (sorted : List PivotRow) (cd ph : List (String × String)) (rules : Rules) :
    Option String → List PivotRow → List SRow
  | _, [] => []
  | cur, r :: rs =>
    if cur = some r.ressource then
      projRowOf cd ph rules r :: emitRows sorted cd ph rules cur rs
    else
      resRowOf sorted r.ressource :: projRowOf cd ph rules r ::
        emitRows sorted cd ph rules (some r.ressource) rs

/-- `DataProcessor.format_resource_summary` (src lines 286-387).  The
`montant_dict` parameter is accepted and, as in the source, never used. -/
def format_resource_summary (pivot : List PivotRow)
    (connection_dict phase_dict montant_dict : List (String × String))
    (rules : Rules) : List SRow :=
  emitRows (sortPivot pivot) connection_dict phase_dict rules none (sortPivot pivot)

/-- `startswith('    ')` of the Reverse Aggregator (src line 415), rendered on
the character list so the kernel can evaluate it. -/
def startsWith4 (s : String) : Bool := decide (s.data.take 4 = (("    ") : String).data)

/-- Python `.strip()`: drop whitespace from both ends. -/
def pyStrip (s : String) : String :=
  String.mk (((s.data.dropWhile (fun c => c.toNat = 32 ∨ c.toNat = 9 ∨ c.toNat = 10 ∨
      c.toNat = 13)).reverse.dropWhile (fun c => c.toNat = 32 ∨ c.toNat = 9 ∨
      c.toNat = 10 ∨ c.toNat = 13)).reverse)

theorem startsWith4_indent (p : String) : startsWith4 ((("    ") ++ p)) = true := by
  unfold startsWith4
  rw [String.data_append]
  rw [show (4 : Nat) = (("    ") : String).data.length from rfl, List.take_left]
  simp

/-- Classification of a summary row by the indentation marker. -/
def isProjRow (row : SRow) : Bool := startsWith4 ((row.rp).getD (""))

theorem isProjRow_projRowOf (cd ph : List (String × String)) (rules : Rules)
    (r : PivotRow) : isProjRow (projRowOf cd ph rules r) = true :=
  startsWith4_indent r.projet

theorem isProjRow_resRowOf (sorted : List PivotRow) (res : String) :
    isProjRow (resRowOf sorted res) = startsWith4 res := rfl

/-- The resource names at which the emission loop's `current_resource`
changes. -/
def changesList : Option String → List String → List String
  | _, [] => []
  | cur, k :: ks =>
    if cur = some k then changesList cur ks else k :: changesList (some k) ks

/-- Project rows of the emitted summary are exactly the input rows, in order,
carrying the indent marker. -/
theorem emit_filter_proj (sorted : List PivotRow) (cd ph : List (String × String))
    (rules : Rules) :
    ∀ (l : List PivotRow) (cur : Option String),
      (∀ r ∈ l, startsWith4 r.ressource = false) →
      ((emitRows sorted cd ph rules cur l).filter isProjRow).map SRow.rp =
        l.map (fun r => some ((("    ") ++ r.projet))) := by
  intro l
  induction l with
  | nil => intro cur _; rfl
  | cons r rs ih =>
    intro cur h
    have hrs : ∀ x ∈ rs, startsWith4 x.ressource = false :=
      fun x hx => h x (List.mem_cons_of_mem r hx)
    by_cases hc : cur = some r.ressource
    · simp only [emitRows, if_pos hc]
      rw [List.filter_cons_of_pos (by simpa using isProjRow_projRowOf cd ph rules r),
        List.map_cons, ih cur hrs]
      rfl
    · simp only [emitRows, if_neg hc]
      rw [List.filter_cons_of_neg (by
          simp only [isProjRow_resRowOf]
          simpa using h r (List.mem_cons_self r rs)),
        List.filter_cons_of_pos (by simpa using isProjRow_projRowOf cd ph rules r),
        List.map_cons, ih (some r.ressource) hrs]
      rfl

/-- Resource rows of the emitted summary are exactly the boundary resources. -/
theorem emit_filter_res (sorted : List PivotRow) (cd ph : List (String × String))
    (rules : Rules) :
    ∀ (l : List PivotRow) (cur : Option String),
      (∀ r ∈ l, startsWith4 r.ressource = false) →
      (emitRows sorted cd ph rules cur l).filter (fun row => !(isProjRow row)) =
        (changesList cur (l.map PivotRow.ressource)).map (resRowOf sorted) := by
  intro l
  induction l with
  | nil => intro cur _; rfl
  | cons r rs ih =>
    intro cur h
    have hrs : ∀ x ∈ rs, startsWith4 x.ressource = false :=
      fun x hx => h x (List.mem_cons_of_mem r hx)
    by_cases hc : cur = some r.ressource
    · simp only [emitRows, if_pos hc, List.map_cons, changesList]
      rw [List.filter_cons_of_neg (by simp [isProjRow_projRowOf]), ih cur hrs]
    · simp only [emitRows, if_neg hc, List.map_cons, changesList]
      rw [List.filter_cons_of_pos (by
          simp only [isProjRow_resRowOf, h r (List.mem_cons_self r rs)]
          rfl),
        List.filter_cons_of_neg (by simp [isProjRow_projRowOf]), ih (some r.ressource) hrs]

/-- Inserting an element and erasing it again: the cardinality identity
underlying the boundary count. -/
theorem card_insert_erase {α : Type} [DecidableEq α] (s : Finset α) (a : α) :
    (insert a s).card = (s.erase a).card + 1 := by
  by_cases h : a ∈ s
  · rw [Finset.insert_eq_self.mpr h]
    have := Finset.card_erase_add_one h
    omega
  · rw [Finset.card_insert_of_not_mem h, Finset.erase_eq_of_not_mem h]

/-- Over a weakly sorted key list all of whose keys are at or above the open
key `c`, the boundary count is the number of distinct keys other than `c`. -/
theorem changesList_some_length : ∀ (ks : List String) (c : String),
    List.Pairwise (fun a b => strLeB a b = true) ks →
    (∀ x ∈ ks, strLeB c x = true) →
    (changesList (some c) ks).length = (ks.toFinset.erase c).card
  | [], c, _, _ => by simp [changesList]
  | k :: ks, c, hp, hle => by
    rcases List.pairwise_cons.mp hp with ⟨hk, hp2⟩
    by_cases hck : c = k
    · have h1 : changesList (some c) (k :: ks) = changesList (some c) ks := by
        simp only [changesList]
        rw [if_pos (by rw [hck])]
      rw [h1, changesList_some_length ks c hp2 (fun x hx => hck ▸ hk x hx)]
      rw [List.toFinset_cons, ← hck, Finset.erase_insert_eq_erase]
    · have h1 : changesList (some c) (k :: ks) = k :: changesList (some k) ks := by
        simp only [changesList]
        rw [if_neg (by simpa using fun h => hck h)]
      have hcks : c ∉ ks := by
        intro hmem
        exact hck (strLeB_antisymm c k (hle k (List.mem_cons_self k ks)) (hk c hmem))
      rw [h1, List.length_cons, changesList_some_length ks k hp2 hk]
      have hnotmem : c ∉ insert k ks.toFinset := by
        simp only [Finset.mem_insert, List.mem_toFinset]
        rintro (hh | hh)
        · exact hck hh
        · exact hcks hh
      rw [List.toFinset_cons, Finset.erase_eq_of_not_mem hnotmem, card_insert_erase]

/-- Over a weakly sorted key list, the boundary count starting from no open
resource is the number of distinct keys. -/
theorem changesList_none_length (ks : List String)
    (hp : List.Pairwise (fun a b => strLeB a b = true) ks) :
    (changesList none ks).length = ks.toFinset.card := by
  match ks with
  | [] => rfl
  | k :: ks =>
    rcases List.pairwise_cons.mp hp with ⟨hk, hp2⟩
    have h1 : changesList none (k :: ks) = k :: changesList (some k) ks := rfl
    rw [h1, List.length_cons, changesList_some_length ks k hp2 hk,
      List.toFinset_cons, card_insert_erase]

theorem sortPivot_pairwise (pivot : List PivotRow) :
    List.Pairwise pivotLe (sortPivot pivot) :=
  List.sorted_insertionSort pivotLe pivot

theorem pivotLe_ress (a b : PivotRow) (h : pivotLe a b) :
    strLeB a.ressource b.ressource = true := by
  unfold pivotLe at h
  by_cases he : a.ressource = b.ressource
  · rw [he]
    exact strLeB_refl _
  · rw [if_neg he] at h
    exact h

theorem sortPivot_ress_pairwise (pivot : List PivotRow) :
    List.Pairwise (fun a b : PivotRow => strLeB a.ressource b.ressource = true)
      (sortPivot pivot) :=
  (sortPivot_pairwise pivot).imp (fun h => pivotLe_ress _ _ h)

theorem sortPivot_perm (pivot : List PivotRow) : List.Perm (sortPivot pivot) pivot :=
  List.perm_insertionSort pivotLe pivot

/-- Every emitted row is a resource header or the detail row of an input row. -/
theorem emit_mem_shape (sorted : List PivotRow) (cd ph : List (String × String))
    (rules : Rules) :
    ∀ (l : List PivotRow) (cur : Option String) (row : SRow),
      row ∈ emitRows sorted cd ph rules cur l →
      (∃ res, row = resRowOf sorted res) ∨
        ∃ r, r ∈ l ∧ row = projRowOf cd ph rules r := by
  intro l
  induction l with
  | nil =>
    intro cur row h
    simp [emitRows] at h
  | cons r rs ih =>
    intro cur row h
    by_cases hc : cur = some r.ressource
    · rw [emitRows, if_pos hc] at h
      rcases List.mem_cons.mp h with h1 | h1
      · exact Or.inr ⟨r, List.mem_cons_self r rs, h1⟩
      · rcases ih cur row h1 with h2 | ⟨x, hx, h2⟩
        · exact Or.inl h2
        · exact Or.inr ⟨x, List.mem_cons_of_mem r hx, h2⟩
    · rw [emitRows, if_neg hc] at h
      rcases List.mem_cons.mp h with h1 | h1
      · exact Or.inl ⟨r.ressource, h1⟩
      · rcases List.mem_cons.mp h1 with h2 | h2
        · exact Or.inr ⟨r, List.mem_cons_self r rs, h2⟩
        · rcases ih (some r.ressource) row h2 with h3 | ⟨x, hx, h3⟩
          · exact Or.inl h3
          · exact Or.inr ⟨x, List.mem_cons_of_mem r hx, h3⟩

/-- C2: the hierarchical summary contains exactly one indent-marked project
row per input row, in (resource, project) ascending order, and exactly one
resource header row per distinct resource; on every row that carries an
ecart, the ecart equals the resolved theoretical charge minus the charge JH,
and the ecart is unset whenever the theoretical charge does not resolve. -/
theorem format_resource_summary_structure
    (pivot : List PivotRow) (cd ph md : List (String × String)) (rules : Rules)
    (hres : ∀ r ∈ pivot, startsWith4 r.ressource = false) :
    ((format_resource_summary pivot cd ph md rules).filter isProjRow).map SRow.rp =
      (sortPivot pivot).map (fun r => some ((("    ") ++ r.projet))) ∧
    ((format_resource_summary pivot cd ph md rules).filter isProjRow).length =
      pivot.length ∧
    ((format_resource_summary pivot cd ph md rules).filter
        (fun row => !(isProjRow row))).length =
      (pivot.map PivotRow.ressource).toFinset.card ∧
    List.Pairwise pivotLe (sortPivot pivot) ∧
    ∀ row ∈ format_resource_summary pivot cd ph md rules,
      (∀ e, row.ecart = some e →
        ∃ t c, row.chargeTheo = some t ∧ row.chargeJH = some c ∧ e = t - c) ∧
      (row.chargeTheo = none → row.ecart = none) := by
  have hsorted : ∀ r ∈ sortPivot pivot, startsWith4 r.ressource = false :=
    fun r hr => hres r ((sortPivot_perm pivot).mem_iff.mp hr)
  have h1 : ((format_resource_summary pivot cd ph md rules).filter isProjRow).map SRow.rp =
      (sortPivot pivot).map (fun r => some ((("    ") ++ r.projet))) :=
    emit_filter_proj (sortPivot pivot) cd ph rules (sortPivot pivot) none hsorted
  refine ⟨h1, ?_, ?_, sortPivot_pairwise pivot, ?_⟩
  · have h := congrArg List.length h1
    rw [List.length_map, List.length_map] at h
    rw [h]
    exact List.length_insertionSort pivotLe pivot
  · have h2 : (format_resource_summary pivot cd ph md rules).filter
        (fun row => !(isProjRow row)) =
        (changesList none ((sortPivot pivot).map PivotRow.ressource)).map
          (resRowOf (sortPivot pivot)) :=
      emit_filter_res (sortPivot pivot) cd ph rules (sortPivot pivot) none hsorted
    rw [h2, List.length_map]
    rw [changesList_none_length ((sortPivot pivot).map PivotRow.ressource)
      (List.pairwise_map.mpr (sortPivot_ress_pairwise pivot))]
    congr 1
    exact List.toFinset_eq_of_perm _ _ ((sortPivot_perm pivot).map PivotRow.ressource)
  · intro row hrow
    rcases emit_mem_shape (sortPivot pivot) cd ph rules (sortPivot pivot) none row hrow with
      ⟨res, rfl⟩ | ⟨r, _, rfl⟩
    · exact ⟨fun e he => absurd he (by simp [resRowOf]), fun _ => rfl⟩
    · constructor
      · intro e he
        rcases hth : resolveTheo cd ph rules r.projet with _ | t
        · exact absurd he (by simp [projRowOf, hth])
        · rcases hch : r.charge with _ | c
          · exact absurd he (by simp [projRowOf, hth, hch])
          · refine ⟨t, c, by simp [projRowOf, hth], by simp [projRowOf, hch], ?_⟩
            have : (projRowOf cd ph rules r).ecart = some (t - c) := by
              simp [projRowOf, hth, hch]
            rw [this] at he
            exact (Option.some.inj he).symm
      · intro hnone
        have hth : resolveTheo cd ph rules r.projet = none := hnone
        simp [projRowOf, hth]

/-- A rule table that never resolves, usable at concrete inputs. -/
def noRules : Rules := fun _ _ => none

/-- A three-row pivot over two resources. -/
def wPivot : List PivotRow :=
  [⟨("R2"), ("P1"), some 1, Cell.na, Cell.na, Cell.na⟩,
   ⟨("R1"), ("P2"), some 2, Cell.na, Cell.na, Cell.na⟩,
   ⟨("R1"), ("P1"), none, Cell.na, Cell.na, Cell.na⟩]

/-- Witness for the C2 theorem at a concrete pivot. -/
theorem format_resource_summary_structure_witness :
    ((format_resource_summary wPivot [] [] [] noRules).filter isProjRow).length =
      wPivot.length ∧
    ((format_resource_summary wPivot [] [] [] noRules).filter
        (fun row => !(isProjRow row))).length =
      (wPivot.map PivotRow.ressource).toFinset.card := by
  have h := format_resource_summary_structure wPivot [] [] [] noRules (by decide)
  exact ⟨h.2.1, h.2.2.1⟩

/-- One output row of the Reverse Aggregator (src lines 420-424): resource,
sum of theoretical charges, project count. -/
structure AggEntry where
  ressource : String
  somme : ℚ
  nombre : Nat
deriving DecidableEq, Repr

/-- The loop state of the Reverse Aggregator (src lines 405-409). -/
structure AggState where
  done : List AggEntry
  cur : Option String
  names : List String
  charges : List (Option ℚ)
deriving DecidableEq, Repr

/-- `sum([c for c in charges if pd.notna(c) and c != 0])` (src lines 418, 441). -/
def sumCharges (cs : List (Option ℚ)) : ℚ :=
  ((cs.filterMap id).filter (fun q => ¬ q = 0)).sum

/-- Close the currently open resource, appending its entry (src lines 416-424
and 439-447). -/
def flushState (st : AggState) : List AggEntry :=
  match st.cur with
  | some res => st.done ++ [⟨res, sumCharges st.charges, st.names.length⟩]
  | none => st.done

/-- One loop iteration of the Reverse Aggregator (src lines 411-437): an
unindented row with non-blank stripped text opens a new resource (flushing
the previous one); an indented row with an open resource is recorded as a
project; everything else is skipped. -/
def aggStep (st : AggState) (row : SRow) : AggState :=
  if !(startsWith4 ((row.rp).getD (""))) && !(pyStrip ((row.rp).getD ("")) == ("")) then
    { done := flushState st, cur := some (pyStrip ((row.rp).getD (""))),
      names := [], charges := [] }
  else if startsWith4 ((row.rp).getD ("")) && st.cur.isSome then
    { st with names := st.names ++ [pyStrip ((row.rp).getD (""))],
              charges := st.charges ++ [row.chargeTheo] }
  else st

/-- Descending order on the summed theoretical charge (src line 454). -/
def aggGe (a b : AggEntry) : Prop := b.somme ≤ a.somme

instance : DecidableRel aggGe := fun a b =>
  inferInstanceAs (Decidable (b.somme ≤ a.somme))

instance : IsTotal AggEntry aggGe := by
  constructor
  intro a b
  unfold aggGe
  exact (le_total b.somme a.somme).imp (fun h => h) (fun h => h)

instance : IsTrans AggEntry aggGe :=
  ⟨fun _ _ _ h1 h2 => le_trans h2 h1⟩

/-- `DataProcessor.create_theoretical_charge_by_resource_from_summary`
(src lines 389-456): fold the rows, flush the last open resource, and sort
the entries by summed theoretical charge, highest first. -/
def create_theoretical_charge_by_resource_from_summary (rows : List SRow) :
    List AggEntry :=
  if rows = [] then []
  else
    if flushState (rows.foldl aggStep ⟨[], none, [], []⟩) = [] then []
    else List.insertionSort aggGe (flushState (rows.foldl aggStep ⟨[], none, [], []⟩))

/-- C10 counterexample: a whitespace-only text that does start with the
4-space indent IS counted as a project of the open resource — the claimed
skip rule fails on it (the resource gets project count 1, not 0). -/
theorem agg_whitespace_project_counted :
    create_theoretical_charge_by_resource_from_summary
      [({ rp := some ("A") } : SRow), ({ rp := some ("    ") } : SRow)] =
      [⟨("A"), 0, 1⟩] ∧
    pyStrip ("    ") = ("") ∧ (1 : Nat) ≠ 0 :=
  ⟨rfl, rfl, by decide⟩

/-- C10 (amended): the Reverse Aggregator skips rows whose text is null, and
rows whose stripped text is empty provided the raw text does not start with
the 4-space indent; indented rows before any resource row are skipped; but
once a resource is open, every row whose text starts with the indent —
whitespace-only text included — is recorded as a project of that resource. -/
theorem aggStep_skip_rules (st : AggState) (row : SRow) :
    (row.rp = none → aggStep st row = st) ∧
    (∀ s, row.rp = some s → startsWith4 s = false → pyStrip s = ("") →
      aggStep st row = st) ∧
    (∀ s, row.rp = some s → startsWith4 s = true → st.cur = none →
      aggStep st row = st) ∧
    (∀ s, row.rp = some s → startsWith4 s = true → st.cur.isSome = true →
      aggStep st row =
        { st with names := st.names ++ [pyStrip s],
                  charges := st.charges ++ [row.chargeTheo] }) := by
  refine ⟨?_, ?_, ?_, ?_⟩
  · intro h
    unfold aggStep
    rw [h]
    rfl
  · intro s h hsw hstrip
    unfold aggStep
    rw [h]
    simp only [Option.getD_some, hsw, hstrip]
    rfl
  · intro s h hsw hcur
    unfold aggStep
    rw [h]
    simp only [Option.getD_some, hsw, hcur]
    rfl
  · intro s h hsw hcur
    unfold aggStep
    rw [h]
    simp only [Option.getD_some, hsw, hcur, Bool.not_true, Bool.false_and,
      Bool.true_and, if_neg (Bool.false_ne_true), if_pos rfl]
    rfl

/-- Witness for the amended C10 theorem at concrete states and rows. -/
theorem aggStep_skip_rules_witness :
    aggStep ⟨[], none, [], []⟩ ({ rp := none } : SRow) = ⟨[], none, [], []⟩ ∧
    aggStep ⟨[], none, [], []⟩ ({ rp := some ("  ") } : SRow) = ⟨[], none, [], []⟩ ∧
    aggStep ⟨[], none, [], []⟩ ({ rp := some ("    x") } : SRow) = ⟨[], none, [], []⟩ ∧
    aggStep ⟨[], some ("A"), [], []⟩ ({ rp := some ("    x") } : SRow) =
      ⟨[], some ("A"), [("x")], [none]⟩ := by
  refine ⟨(aggStep_skip_rules ⟨[], none, [], []⟩ ({ rp := none } : SRow)).1 rfl,
    (aggStep_skip_rules ⟨[], none, [], []⟩
      ({ rp := some ("  ") } : SRow)).2.1 ("  ") rfl rfl rfl,
    (aggStep_skip_rules ⟨[], none, [], []⟩
      ({ rp := some ("    x") } : SRow)).2.2.1 ("    x") rfl rfl rfl, ?_⟩
  have h := (aggStep_skip_rules ⟨[], some ("A"), [], []⟩
    ({ rp := some ("    x") } : SRow)).2.2.2 ("    x") rfl rfl rfl
  rw [h]
  rfl

/-- What the aggregator accumulates over the emitted summary of a group-tail
list: one entry per resource block, carrying the charges seen so far and the
running project count of the open resource. -/
def aggRec (f : PivotRow → Option ℚ) :
    String → List (Option ℚ) → Nat → List PivotRow → List AggEntry
  | res, chs, n, [] => [⟨res, sumCharges chs, n⟩]
  | res, chs, n, r :: rs =>
    if r.ressource = res then aggRec f res (chs ++ [f r]) (n + 1) rs
    else ⟨res, sumCharges chs, n⟩ :: aggRec f r.ressource [f r] 1 rs

theorem aggRec_ne_nil (f : PivotRow → Option ℚ) :
    ∀ (l : List PivotRow) (res : String) (chs : List (Option ℚ)) (n : Nat),
      aggRec f res chs n l ≠ [] := by
  intro l
  induction l with
  | nil =>
    intro res chs n
    simp [aggRec]
  | cons r rs ih =>
    intro res chs n
    by_cases hc : r.ressource = res
    · rw [aggRec, if_pos hc]
      exact ih res (chs ++ [f r]) (n + 1)
    · rw [aggRec, if_neg hc]
      simp

/-- Simulation: folding the aggregator over the summary emitted for `l` with
resource `res` open (charges and names already accumulated), then flushing,
yields the finished entries followed by the recursive accumulation. -/
theorem agg_emit_sim (sorted : List PivotRow) (cd ph : List (String × String))
    (rules : Rules) :
    ∀ (l : List PivotRow) (res : String) (chs : List (Option ℚ))
      (names : List String) (done : List AggEntry),
      (∀ r ∈ l, startsWith4 r.ressource = false ∧ pyStrip r.ressource = r.ressource ∧
        r.ressource ≠ ("")) →
      flushState (List.foldl aggStep ⟨done, some res, names, chs⟩
          (emitRows sorted cd ph rules (some res) l)) =
        done ++ aggRec (fun r => resolveTheo cd ph rules r.projet) res chs names.length l := by
  intro l
  induction l with
  | nil =>
    intro res chs names done _
    rfl
  | cons r rs ih =>
    intro res chs names done h
    have hr := h r (List.mem_cons_self r rs)
    have hrs : ∀ x ∈ rs, startsWith4 x.ressource = false ∧
        pyStrip x.ressource = x.ressource ∧ x.ressource ≠ ("") :=
      fun x hx => h x (List.mem_cons_of_mem r hx)
    have hproj : ∀ (st : AggState), st.cur.isSome = true →
        aggStep st (projRowOf cd ph rules r) =
          { st with names := st.names ++ [pyStrip ((("    ") ++ r.projet))],
                    charges := st.charges ++ [resolveTheo cd ph rules r.projet] } := by
      intro st hsome
      have := (aggStep_skip_rules st (projRowOf cd ph rules r)).2.2.2
        ((("    ") ++ r.projet)) rfl (startsWith4_indent r.projet) hsome
      rw [this]
      rfl
    by_cases hc : r.ressource = res
    · rw [emitRows, if_pos (by rw [hc]), List.foldl_cons,
        hproj ⟨done, some res, names, chs⟩ rfl]
      rw [ih res (chs ++ [resolveTheo cd ph rules r.projet])
        (names ++ [pyStrip ((("    ") ++ r.projet))]) done hrs]
      rw [aggRec, if_pos hc, List.length_append, List.length_singleton]
    · rw [emitRows, if_neg (fun hh => hc (Option.some.inj hh).symm), List.foldl_cons]
      have hbeq : (r.ressource == ("")) = false := by
        simp only [beq_eq_false_iff_ne, ne_eq]
        exact hr.2.2
      have hstep1 : aggStep ⟨done, some res, names, chs⟩ (resRowOf sorted r.ressource) =
          ⟨done ++ [⟨res, sumCharges chs, names.length⟩], some r.ressource, [], []⟩ := by
        unfold aggStep
        have hrp : (((resRowOf sorted r.ressource).rp).getD (""))  = r.ressource := rfl
        rw [hrp, hr.1, hr.2.1, hbeq]
        rfl
      have hstep2 : aggStep ⟨done ++ [(⟨res, sumCharges chs, names.length⟩ : AggEntry)],
          some r.ressource, [], []⟩ (projRowOf cd ph rules r) =
          ⟨done ++ [(⟨res, sumCharges chs, names.length⟩ : AggEntry)], some r.ressource,
            [pyStrip ((("    ") ++ r.projet))], [resolveTheo cd ph rules r.projet]⟩ := by
        rw [hproj ⟨done ++ [(⟨res, sumCharges chs, names.length⟩ : AggEntry)],
          some r.ressource, [], []⟩ rfl]
        rfl
      rw [hstep1, List.foldl_cons, hstep2]
      rw [ih r.ressource [resolveTheo cd ph rules r.projet]
        ([pyStrip ((("    ") ++ r.projet))])
        (done ++ [(⟨res, sumCharges chs, names.length⟩ : AggEntry)]) hrs]
      rw [aggRec, if_neg hc, List.length_singleton, List.append_assoc]
      rfl

/-- Entries accumulated by `aggRec` only carry the open resource or a
resource occurring later in the list. -/
theorem aggRec_filter_none (f : PivotRow → Option ℚ) :
    ∀ (l : List PivotRow) (res : String) (chs : List (Option ℚ)) (n : Nat)
      (res' : String), res' ≠ res → res' ∉ l.map PivotRow.ressource →
      (aggRec f res chs n l).filter (fun e => e.ressource = res') = [] := by
  intro l
  induction l with
  | nil =>
    intro res chs n res' hne _
    simp only [aggRec]
    rw [List.filter_cons_of_neg (by simp; exact fun h => hne h.symm)]
    rfl
  | cons r rs ih =>
    intro res chs n res' hne hmem
    rw [List.map_cons] at hmem
    have hhead : res' ≠ r.ressource := fun h => hmem (h ▸ List.mem_cons_self _ _)
    have htail : res' ∉ rs.map PivotRow.ressource :=
      fun h => hmem (List.mem_cons_of_mem _ h)
    by_cases hc : r.ressource = res
    · rw [aggRec, if_pos hc]
      exact ih res (chs ++ [f r]) (n + 1) res' hne htail
    · rw [aggRec, if_neg hc]
      rw [List.filter_cons_of_neg (by simp; exact fun h => hne h.symm)]
      exact ih r.ressource [f r] 1 res' hhead htail

/-- `aggRec` closes the open resource with the accumulated charges plus those
of its remaining block, and the block size added to the running count. -/
theorem aggRec_filter_self (f : PivotRow → Option ℚ) :
    ∀ (l : List PivotRow) (res : String) (chs : List (Option ℚ)) (n : Nat),
      List.Pairwise (fun a b : PivotRow => strLeB a.ressource b.ressource = true) l →
      (∀ x ∈ l, strLeB res x.ressource = true) →
      (aggRec f res chs n l).filter (fun e => e.ressource = res) =
        [⟨res, sumCharges (chs ++ (l.filter (fun r => r.ressource = res)).map f),
          n + l.countP (fun r => r.ressource = res)⟩] := by
  intro l
  induction l with
  | nil =>
    intro res chs n _ _
    simp only [aggRec, List.filter_nil, List.map_nil, List.append_nil, List.countP_nil]
    rw [List.filter_cons_of_pos (by simp)]
    rfl
  | cons r rs ih =>
    intro res chs n hp hle
    rcases List.pairwise_cons.mp hp with ⟨hk, hp2⟩
    by_cases hc : r.ressource = res
    · rw [aggRec, if_pos hc]
      rw [ih res (chs ++ [f r]) (n + 1) hp2 (fun x hx => hc ▸ hk x hx)]
      rw [List.filter_cons_of_pos (by simp [hc]), List.map_cons]
      have h1 : chs ++ [f r] ++ (rs.filter (fun r => r.ressource = res)).map f =
          chs ++ f r :: (rs.filter (fun r => r.ressource = res)).map f := by
        rw [List.append_assoc]
        rfl
      have h2 : n + 1 + rs.countP (fun r => r.ressource = res) =
          n + (r :: rs).countP (fun r => r.ressource = res) := by
        rw [List.countP_cons, if_pos (by simp [hc])]
        omega
      rw [h1, h2]
    · rw [aggRec, if_neg hc]
      have hres_notin : res ∉ rs.map PivotRow.ressource := by
        intro hmem
        rcases List.mem_map.mp hmem with ⟨x, hx, hxr⟩
        exact hc (strLeB_antisymm r.ressource res
          (hxr ▸ hk x hx) (hle r (List.mem_cons_self r rs)))
      rw [List.filter_cons_of_pos (by simp)]
      rw [aggRec_filter_none f rs r.ressource [f r] 1 res
        (fun h => hc h.symm) hres_notin]
      have hfil : rs.filter (fun r => r.ressource = res) = [] := by
        rw [List.filter_eq_nil]
        intro x hx
        simp only [decide_eq_true_eq]
        intro hxr
        exact hres_notin (List.mem_map.mpr ⟨x, hx, hxr⟩)
      have hcount : (r :: rs).countP (fun r => r.ressource = res) = 0 := by
        rw [List.countP_cons, if_neg (by simp [hc]), List.countP_eq_zero.mpr]
        intro x hx
        simp only [decide_eq_true_eq]
        intro hxr
        exact hres_notin (List.mem_map.mpr ⟨x, hx, hxr⟩)
      rw [List.filter_cons_of_neg (by simp [hc]), hfil, hcount]
      simp only [List.map_nil, List.append_nil]
      rfl

/-- `aggRec` produces, for each later resource, exactly one entry carrying the
charges and the row count of that resource's block. -/
theorem aggRec_filter_other (f : PivotRow → Option ℚ) :
    ∀ (l : List PivotRow) (res : String) (chs : List (Option ℚ)) (n : Nat)
      (res' : String),
      List.Pairwise (fun a b : PivotRow => strLeB a.ressource b.ressource = true) l →
      (∀ x ∈ l, strLeB res x.ressource = true) →
      res' ≠ res → res' ∈ l.map PivotRow.ressource →
      (aggRec f res chs n l).filter (fun e => e.ressource = res') =
        [⟨res', sumCharges ((l.filter (fun r => r.ressource = res')).map f),
          l.countP (fun r => r.ressource = res')⟩] := by
  intro l
  induction l with
  | nil =>
    intro res chs n res' _ _ _ hmem
    simp at hmem
  | cons r rs ih =>
    intro res chs n res' hp hle hne hmem
    rcases List.pairwise_cons.mp hp with ⟨hk, hp2⟩
    by_cases hc : r.ressource = res
    · have hmem2 : res' ∈ rs.map PivotRow.ressource := by
        rcases List.mem_cons.mp (List.map_cons PivotRow.ressource r rs ▸ hmem) with h1 | h1
        · exact absurd (h1.trans hc) hne
        · exact h1
      rw [aggRec, if_pos hc,
        ih res (chs ++ [f r]) (n + 1) res' hp2 (fun x hx => hc ▸ hk x hx) hne hmem2]
      rw [List.filter_cons_of_neg (by simp; exact fun h => hne (h.symm.trans hc)),
        List.countP_cons, if_neg (by simp; exact fun h => hne (h.symm.trans hc))]
      simp
    · rw [aggRec, if_neg hc]
      rw [List.filter_cons_of_neg (by simp; exact fun h => hne h.symm)]
      by_cases hh : res' = r.ressource
      · rw [hh]
        rw [aggRec_filter_self f rs r.ressource [f r] 1 hp2 hk]
        rw [List.filter_cons_of_pos (by simp), List.map_cons,
          List.countP_cons, if_pos (by simp)]
        have h1 : ([f r] : List (Option ℚ)) ++
            (rs.filter (fun x => x.ressource = r.ressource)).map f =
            f r :: (rs.filter (fun x => x.ressource = r.ressource)).map f := rfl
        rw [h1]
        have h2 : 1 + rs.countP (fun x => x.ressource = r.ressource) =
            rs.countP (fun x => x.ressource = r.ressource) + 1 := by omega
        rw [h2]
      · have hmem2 : res' ∈ rs.map PivotRow.ressource := by
          rcases List.mem_cons.mp (List.map_cons PivotRow.ressource r rs ▸ hmem) with h1 | h1
          · exact absurd h1 hh
          · exact h1
        rw [ih r.ressource [f r] 1 res' hp2 hk hh hmem2]
        rw [List.filter_cons_of_neg (by simp; exact fun h => hh h.symm),
          List.countP_cons, if_neg (by simp; exact fun h => hh h.symm)]
        simp

/-- The non-null nonzero sum is invariant under permutation of the charge
list. -/
theorem sumCharges_perm (l l2 : List (Option ℚ)) (h : List.Perm l l2) :
    sumCharges l = sumCharges l2 := by
  unfold sumCharges
  exact ((h.filterMap id).filter (fun q => ¬ q = 0)).sum_eq

/-- The sum of the non-null, nonzero theoretical charges the builder computes
for one resource's rows of the pivot. -/
def theoSumFor (cd ph : List (String × String)) (rules : Rules)
    (pivot : List PivotRow) (res : String) : ℚ :=
  sumCharges ((pivot.filter (fun r => r.ressource = res)).map
    (fun r => resolveTheo cd ph rules r.projet))

/-- C1: feeding the builder's output into the Reverse Aggregator yields, for
each resource of the pivot, exactly one entry, whose project count is that
resource's number of pivot rows and whose theoretical-charge sum is the sum
of the non-null nonzero theoretical charges the builder computed for that
resource's rows.  The hypotheses say resource names are well-formed text
labels: not starting with the 4-space indent marker, stable under strip, and
non-empty. -/
theorem aggregate_roundtrip (pivot : List PivotRow)
    (cd ph md : List (String × String)) (rules : Rules)
    (hres : ∀ r ∈ pivot, startsWith4 r.ressource = false ∧
      pyStrip r.ressource = r.ressource ∧ r.ressource ≠ ("")) :
    ∀ res ∈ pivot.map PivotRow.ressource,
      ((create_theoretical_charge_by_resource_from_summary
          (format_resource_summary pivot cd ph md rules)).filter
        (fun e => e.ressource = res)).map (fun e => (e.nombre, e.somme)) =
      [(pivot.countP (fun r => r.ressource = res),
        theoSumFor cd ph rules pivot res)] := by
  intro res hresmem
  have hperm := sortPivot_perm pivot
  have hmem_sorted : res ∈ (sortPivot pivot).map PivotRow.ressource := by
    rcases List.mem_map.mp hresmem with ⟨r, hr, rfl⟩
    exact List.mem_map.mpr ⟨r, hperm.mem_iff.mpr hr, rfl⟩
  have hsorted_h : ∀ r ∈ sortPivot pivot, startsWith4 r.ressource = false ∧
      pyStrip r.ressource = r.ressource ∧ r.ressource ≠ ("") :=
    fun r hr => hres r (hperm.mem_iff.mp hr)
  have hress_pw := sortPivot_ress_pairwise pivot
  rcases hs : sortPivot pivot with _ | ⟨r0, rs⟩
  · rw [hs] at hmem_sorted
    simp at hmem_sorted
  · rw [hs] at hsorted_h hress_pw hmem_sorted
    rcases List.pairwise_cons.mp hress_pw with ⟨hk, hp2⟩
    have h0 := hsorted_h r0 (List.mem_cons_self r0 rs)
    have hrs_h : ∀ x ∈ rs, startsWith4 x.ressource = false ∧
        pyStrip x.ressource = x.ressource ∧ x.ressource ≠ ("") :=
      fun x hx => hsorted_h x (List.mem_cons_of_mem r0 hx)
    have hform : format_resource_summary pivot cd ph md rules =
        resRowOf (r0 :: rs) r0.ressource :: projRowOf cd ph rules r0 ::
          emitRows (r0 :: rs) cd ph rules (some r0.ressource) rs := by
      unfold format_resource_summary
      rw [hs, emitRows, if_neg (by simp)]
    have hbeq0 : (r0.ressource == ("")) = false := by
      simp only [beq_eq_false_iff_ne, ne_eq]
      exact h0.2.2
    have hstep1 : aggStep ⟨[], none, [], []⟩ (resRowOf (r0 :: rs) r0.ressource) =
        ⟨[], some r0.ressource, [], []⟩ := by
      unfold aggStep
      have hrp : (((resRowOf (r0 :: rs) r0.ressource).rp).getD (""))  = r0.ressource := rfl
      rw [hrp, h0.1, h0.2.1, hbeq0]
      rfl
    have hstep2 : aggStep ⟨[], some r0.ressource, [], []⟩ (projRowOf cd ph rules r0) =
        ⟨[], some r0.ressource, [pyStrip ((("    ") ++ r0.projet))],
          [resolveTheo cd ph rules r0.projet]⟩ := by
      have h := (aggStep_skip_rules ⟨[], some r0.ressource, [], []⟩
        (projRowOf cd ph rules r0)).2.2.2 ((("    ") ++ r0.projet)) rfl
        (startsWith4_indent r0.projet) rfl
      rw [h]
      rfl
    have hdata : flushState ((format_resource_summary pivot cd ph md rules).foldl
        aggStep ⟨[], none, [], []⟩) =
        aggRec (fun r => resolveTheo cd ph rules r.projet) r0.ressource
          [resolveTheo cd ph rules r0.projet] 1 rs := by
      rw [hform, List.foldl_cons, hstep1, List.foldl_cons, hstep2]
      have h := agg_emit_sim (r0 :: rs) cd ph rules rs r0.ressource
        [resolveTheo cd ph rules r0.projet]
        [pyStrip ((("    ") ++ r0.projet))] [] hrs_h
      rw [h]
      rfl
    have hagg : create_theoretical_charge_by_resource_from_summary
        (format_resource_summary pivot cd ph md rules) =
        List.insertionSort aggGe
          (aggRec (fun r => resolveTheo cd ph rules r.projet) r0.ressource
            [resolveTheo cd ph rules r0.projet] 1 rs) := by
      unfold create_theoretical_charge_by_resource_from_summary
      rw [if_neg (by rw [hform]; simp), hdata,
        if_neg (aggRec_ne_nil _ rs r0.ressource _ 1)]
    rw [hagg]
    have hfil_perm : List.Perm
        ((List.insertionSort aggGe
          (aggRec (fun r => resolveTheo cd ph rules r.projet) r0.ressource
            [resolveTheo cd ph rules r0.projet] 1 rs)).filter
          (fun e => e.ressource = res))
        ((aggRec (fun r => resolveTheo cd ph rules r.projet) r0.ressource
            [resolveTheo cd ph rules r0.projet] 1 rs).filter
          (fun e => e.ressource = res)) :=
      (List.perm_insertionSort aggGe _).filter _
    by_cases hr0 : res = r0.ressource
    · have hself := aggRec_filter_self (fun r => resolveTheo cd ph rules r.projet)
        rs r0.ressource [resolveTheo cd ph rules r0.projet] 1 hp2 hk
      rw [hr0] at hfil_perm ⊢
      rw [hself] at hfil_perm
      rw [List.perm_singleton.mp hfil_perm, List.map_cons, List.map_nil]
      have hcount : 1 + rs.countP (fun r => r.ressource = r0.ressource) =
          pivot.countP (fun r => r.ressource = r0.ressource) := by
        have h1 : (r0 :: rs).countP (fun r => decide (r.ressource = r0.ressource)) =
            pivot.countP (fun r => decide (r.ressource = r0.ressource)) := by
          rw [← hs]
          exact hperm.countP_eq _
        rw [List.countP_cons, if_pos (by simp)] at h1
        omega
      have hsum : sumCharges ([resolveTheo cd ph rules r0.projet] ++
          (rs.filter (fun r => r.ressource = r0.ressource)).map
            (fun r => resolveTheo cd ph rules r.projet)) =
          theoSumFor cd ph rules pivot r0.ressource := by
        have h1 : ([resolveTheo cd ph rules r0.projet] ++
            (rs.filter (fun r => r.ressource = r0.ressource)).map
              (fun r => resolveTheo cd ph rules r.projet)) =
            ((r0 :: rs).filter (fun r => r.ressource = r0.ressource)).map
              (fun r => resolveTheo cd ph rules r.projet) := by
          rw [List.filter_cons_of_pos (by simp)]
          rfl
        rw [h1]
        unfold theoSumFor
        apply sumCharges_perm
        apply List.Perm.map
        have h2 : List.Perm (sortPivot pivot) pivot := hperm
        rw [hs] at h2
        exact h2.filter _
      rw [hcount, hsum]
    · have hmem2 : res ∈ rs.map PivotRow.ressource := by
        rcases List.mem_cons.mp (List.map_cons PivotRow.ressource r0 rs ▸ hmem_sorted)
          with h1 | h1
        · exact absurd h1 hr0
        · exact h1
      have hother := aggRec_filter_other (fun r => resolveTheo cd ph rules r.projet)
        rs r0.ressource [resolveTheo cd ph rules r0.projet] 1 res hp2 hk hr0 hmem2
      rw [hother] at hfil_perm
      rw [List.perm_singleton.mp hfil_perm, List.map_cons, List.map_nil]
      have hcount : rs.countP (fun r => r.ressource = res) =
          pivot.countP (fun r => r.ressource = res) := by
        have h1 : (r0 :: rs).countP (fun r => decide (r.ressource = res)) =
            pivot.countP (fun r => decide (r.ressource = res)) := by
          rw [← hs]
          exact hperm.countP_eq _
        rw [List.countP_cons, if_neg (by simp; exact fun h => hr0 h.symm)] at h1
        omega
      have hsum : sumCharges ((rs.filter (fun r => r.ressource = res)).map
            (fun r => resolveTheo cd ph rules r.projet)) =
          theoSumFor cd ph rules pivot res := by
        have h1 : rs.filter (fun r => r.ressource = res) =
            (r0 :: rs).filter (fun r => r.ressource = res) := by
          rw [List.filter_cons_of_neg (by simp; exact fun h => hr0 h.symm)]
        rw [h1]
        unfold theoSumFor
        apply sumCharges_perm
        apply List.Perm.map
        have h2 : List.Perm (sortPivot pivot) pivot := hperm
        rw [hs] at h2
        exact h2.filter _
      rw [hcount, hsum]

/-- A concrete rule table with one resolvable pair. -/
def wRules : Rules := fun cl pp =>
  if cl = some ("Connexion EDI") ∧ pp = some ("Développement") then some 12 else none

/-- Connection-level lookups for the witness pivot. -/
def wCd : List (String × String) := [(("P1"), ("Connexion Recette"))]

/-- Phase lookups for the witness pivot. -/
def wPh : List (String × String) := [(("P1"), ("Connexion Développe"))]

/-- Witness for the C1 theorem at a concrete pivot, lookup tables and rule
table. -/
theorem aggregate_roundtrip_witness :
    ((create_theoretical_charge_by_resource_from_summary
        (format_resource_summary wPivot wCd wPh [] wRules)).filter
      (fun e => e.ressource = ("R1"))).map (fun e => (e.nombre, e.somme)) =
    [(wPivot.countP (fun r => r.ressource = ("R1")),
      theoSumFor wCd wPh wRules wPivot ("R1"))] :=
  aggregate_roundtrip wPivot wCd wPh [] wRules (by decide) ("R1") (by decide)

/-- A Python object holding one of the table shapes the processor works on.
The heap model below tracks which object each statement mutates, so that the
copy-on-write discipline of the source is a provable property rather than a
modelling assumption. -/
inductive PyObj where
  | df : DataFrame → PyObj
  | mrows : List MRow → PyObj
  | orows : List ORow → PyObj
  | prows : List PivotRow → PyObj
  | srows : List SRow → PyObj
deriving DecidableEq, Repr

/-- The heap: objects indexed by allocation order. -/
abbrev Store := List PyObj

/-- Read the object at a heap id. -/
def storeGetD (σ : Store) (i : Nat) : PyObj := σ.getD i (PyObj.df ⟨[], []⟩)

def PyObj.asDf : PyObj → DataFrame
  | .df d => d
  | _ => ⟨[], []⟩

def PyObj.asMRows : PyObj → List MRow
  | .mrows l => l
  | _ => []

def PyObj.asORows : PyObj → List ORow
  | .orows l => l
  | _ => []

def PyObj.asPRows : PyObj → List PivotRow
  | .prows l => l
  | _ => []

def PyObj.asSRows : PyObj → List SRow
  | .srows l => l
  | _ => []

/-- `σ'` extends `σ`: it is at least as long and agrees with it on every id
allocated in `σ`. -/
def StoreExt (σ σ2 : Store) : Prop :=
  σ.length ≤ σ2.length ∧ ∀ i, i < σ.length → storeGetD σ2 i = storeGetD σ i

theorem storeExt_refl (σ : Store) : StoreExt σ σ :=
  ⟨le_refl _, fun _ _ => rfl⟩

theorem storeExt_append (σ σ2 : Store) (h : StoreExt σ σ2) (o : PyObj) :
    StoreExt σ (σ2 ++ [o]) := by
  refine ⟨by have hl := h.1; simp only [List.length_append, List.length_singleton]; omega, ?_⟩
  intro i hi
  have hlt : i < σ2.length := lt_of_lt_of_le hi h.1
  unfold storeGetD
  rw [List.getD_append _ _ _ _ hlt]
  exact h.2 i hi

theorem storeExt_set (σ σ2 : Store) (h : StoreExt σ σ2) (j : Nat) (o : PyObj)
    (hj : σ.length ≤ j) : StoreExt σ (σ2.set j o) := by
  refine ⟨by rw [List.length_set]; exact h.1, ?_⟩
  intro i hi
  unfold storeGetD List.getD
  rw [List.get?_set_ne _ _ (by omega)]
  exact h.2 i hi

theorem storeExt_getD (σ σ2 : Store) (h : StoreExt σ σ2) (i : Nat)
    (hi : i < σ.length) : storeGetD σ2 i = storeGetD σ i :=
  h.2 i hi

/-- `df_copy['Soumise (h)'] / 8` on one cell: NA propagates, non-numeric
values raise `TypeError` as the pandas division would. -/
def div8Cell : Cell → Except PyErr Cell
  | Cell.na => .ok Cell.na
  | Cell.num q => .ok (Cell.num (q / 8))
  | _ => .error .typeError

/-- Set (or add) a cell in a row. -/
def setCell (r : PdRow) (c : String) (v : Cell) : PdRow :=
  if r.any (fun p => p.1 = c) then r.map (fun p => if p.1 = c then (c, v) else p)
  else r ++ [(c, v)]

/-- Add a column name to the schema if absent. -/
def addCol (cols : List String) (c : String) : List String :=
  if c ∈ cols then cols else cols ++ [c]

/-- The content of the `Charge JH` column assignment (src line 61): divide the
submitted-hours column by 8, reading the column (`KeyError` when absent). -/
def chargeJHContent (d : DataFrame) : Except PyErr DataFrame := do
  if ("Soumise (h)") ∈ d.cols then
    let newRows ← d.rows.mapM (fun r => do
      let v ← div8Cell (PdRow.get r ("Soumise (h)"))
      pure (setCell r ("Charge JH") v))
    pure ⟨addCol d.cols ("Charge JH"), newRows⟩
  else .error .keyError

/-- `DataProcessor.calculate_charge_jh` (src lines 49-62) over the heap:
copy the input frame (a fresh allocation), then assign the derived column in
place on the copy; the caller's frame is never written. -/
def calculate_charge_jh_st (σ : Store) (dfId : Nat) : Store × Except PyErr Nat :=
  let σ1 := σ ++ [storeGetD σ dfId]
  let c := σ.length
  match chargeJHContent ((storeGetD σ1 c).asDf) with
  | .ok d2 => (σ1.set c (PyObj.df d2), .ok c)
  | .error e => (σ1, e |> Except.error)

theorem calculate_charge_jh_st_ext (σ : Store) (dfId : Nat) :
    StoreExt σ (calculate_charge_jh_st σ dfId).1 := by
  unfold calculate_charge_jh_st
  simp only []
  split
  · exact storeExt_set σ _ (storeExt_append σ σ (storeExt_refl σ) _) σ.length _ (le_refl _)
  · exact storeExt_append σ σ (storeExt_refl σ) _

theorem getD_append_lt (σ : Store) (o : PyObj) (i : Nat) (h : i < σ.length) :
    storeGetD (σ ++ [o]) i = storeGetD σ i := by
  unfold storeGetD
  rw [List.getD_append _ _ _ _ h]

theorem getD_set_ne2 (σ : Store) (j : Nat) (o : PyObj) (i : Nat) (h : i ≠ j) :
    storeGetD (σ.set j o) i = storeGetD σ i := by
  unfold storeGetD List.getD
  rw [List.get?_set_ne _ _ (fun hh => h hh.symm)]

/-- `Date effective` initial assignment (src line 174). -/
def stepEffInit (r : MRow) : MRow := { r with eff := r.da }

/-- The `.loc` fallback assignment (src lines 177-180). -/
def stepEffFallback (hasDC : Bool) (r : MRow) : MRow :=
  if hasDC ∧ r.da = Cell.na ∧ r.dc ≠ Cell.na then { r with eff := r.dc } else r

/-- Year-column assignment (src line 196). -/
def addAnnee (r : MRow) : MRow :=
  { r with annee := match r.eff with
                    | Cell.date y => Cell.num ((y : ℚ))
                    | _ => Cell.na }

/-- Column selection and rename of src lines 199-200. -/
def toORowSel (r : MRow) : ORow := ⟨r.annee, Cell.na, r.nom, r.dn⟩

/-- Sort key of src line 203 on display rows. -/
def orowLe (a b : ORow) : Prop :=
  (if a.annee = b.annee then cellLeB a.nomProjet b.nomProjet
   else cellLeB a.annee b.annee) = true

instance : DecidableRel orowLe := fun a b =>
  inferInstanceAs (Decidable (_ = true))

/-- Count-column assignment (src line 206). -/
def countO (rows : List ORow) : List ORow :=
  rows.map (fun o =>
    { o with nombre := Cell.num ((rows.countP (fun u => u.annee = o.annee) : ℚ)) })

/-- Blank 2024/2025 project names (src line 210). -/
def blankNomO (rows : List ORow) : List ORow :=
  rows.map (fun o =>
    if o.annee = Cell.num 2024 ∨ o.annee = Cell.num 2025 then
      { o with nomProjet := Cell.str ("") }
    else o)

/-- Blank 2024/2025 notes (src line 211). -/
def blankNoteO (rows : List ORow) : List ORow :=
  rows.map (fun o =>
    if o.annee = Cell.num 2024 ∨ o.annee = Cell.num 2025 then
      { o with derniereNote := Cell.str ("") }
    else o)

/-- The unique-year loop of src lines 214-220: blank year and count on every
row with an earlier same-year row. -/
def collapseO (rows : List ORow) : List ORow :=
  (List.range rows.length).map (fun i =>
    let t := rows.getD i ⟨Cell.na, Cell.na, Cell.na, Cell.na⟩
    if ((rows.take i).map ORow.annee).contains t.annee then
      { t with annee := Cell.str (""), nombre := Cell.str ("") }
    else t)

/-- Stage values of the year-summary pipeline, named so the heap version
below stays small: projection of src line 170. -/
def mProjRows (df : DataFrame) : List MRow :=
  df.rows.map (projectCols (("Date de création") ∈ df.cols) (("Dernière Note") ∈ df.cols))

/-- Phase filter of src line 171. -/
def mFilteredRows (df : DataFrame) (pc : Option (List String)) : List MRow :=
  (mProjRows df).filter (fun r => phaseIn (allowedPhases pc) r.phase)

/-- Src line 174. -/
def mEffInitRows (df : DataFrame) (pc : Option (List String)) : List MRow :=
  (mFilteredRows df pc).map stepEffInit

/-- Src lines 177-180. -/
def mEffRows (df : DataFrame) (pc : Option (List String)) : List MRow :=
  (mEffInitRows df pc).map (stepEffFallback (("Date de création") ∈ df.cols))

/-- Src line 183. -/
def mDatedRows (df : DataFrame) (pc : Option (List String)) : List MRow :=
  (mEffRows df pc).filter (fun r => r.eff ≠ Cell.na)

/-- Src line 189. -/
def mParsedPre (df : DataFrame) (pc : Option (List String)) : List MRow :=
  (mDatedRows df pc).map coerceDate

/-- Src line 190. -/
def mParsedRows (df : DataFrame) (pc : Option (List String)) : List MRow :=
  (mParsedPre df pc).filter (fun r => r.eff ≠ Cell.na)

/-- Src line 196. -/
def mYearRows (df : DataFrame) (pc : Option (List String)) : List MRow :=
  (mParsedRows df pc).map addAnnee

/-- Src lines 199-200. -/
def oSelRows (df : DataFrame) (pc : Option (List String)) : List ORow :=
  (mYearRows df pc).map toORowSel

/-- Src line 203. -/
def oSortedRows (df : DataFrame) (pc : Option (List String)) : List ORow :=
  List.insertionSort orowLe (oSelRows df pc)

/-- Src line 206. -/
def oCountedRows (df : DataFrame) (pc : Option (List String)) : List ORow :=
  countO (oSortedRows df pc)

/-- Src line 210. -/
def oBlankNomRows (df : DataFrame) (pc : Option (List String)) : List ORow :=
  blankNomO (oCountedRows df pc)

/-- Src line 211. -/
def oBlankRows (df : DataFrame) (pc : Option (List String)) : List ORow :=
  blankNoteO (oBlankNomRows df pc)

/-- Src lines 214-220. -/
def oFinalRows (df : DataFrame) (pc : Option (List String)) : List ORow :=
  collapseO (oBlankRows df pc)

/-- `DataProcessor.create_projects_by_month_summary` (src lines 132-225) over
the heap: every frame-creating expression allocates, every in-place
statement writes the id of a frame created inside the call; the caller's
frame is only read. -/
def create_projects_by_month_summary_st (σ : Store) (dfId : Nat)
    (phases_checked : Option (List String)) : Store × Except PyErr Nat :=
  let df := (storeGetD σ dfId).asDf
  if ("Date d\x27affectation") ∈ df.cols then
    if ("Nom") ∈ df.cols ∧ ("Phase du projet") ∈ df.cols then
      let σ1 := σ ++ [PyObj.mrows (mProjRows df)]
      let σ2 := σ1 ++ [PyObj.mrows (mFilteredRows df phases_checked)]
      let c2 := σ1.length
      let σ3 := σ2.set c2 (PyObj.mrows (mEffInitRows df phases_checked))
      let σ4 := σ3.set c2 (PyObj.mrows (mEffRows df phases_checked))
      let σ5 := σ4 ++ [PyObj.mrows (mDatedRows df phases_checked)]
      let c3 := σ4.length
      if mDatedRows df phases_checked = [] then
        (σ5 ++ [PyObj.orows []], .ok σ5.length)
      else
        let σ6 := σ5.set c3 (PyObj.mrows (mParsedPre df phases_checked))
        let σ7 := σ6 ++ [PyObj.mrows (mParsedRows df phases_checked)]
        let c4 := σ6.length
        if mParsedRows df phases_checked = [] then
          (σ7 ++ [PyObj.orows []], .ok σ7.length)
        else
          let σ8 := σ7.set c4 (PyObj.mrows (mYearRows df phases_checked))
          if ("Dernière Note") ∈ df.cols then
            let σ9 := σ8 ++ [PyObj.orows (oSelRows df phases_checked)]
            let σ10 := σ9 ++ [PyObj.orows (oSortedRows df phases_checked)]
            let r2 := σ9.length
            let σ11 := σ10.set r2 (PyObj.orows (oCountedRows df phases_checked))
            let σ12 := σ11.set r2 (PyObj.orows (oBlankNomRows df phases_checked))
            let σ13 := σ12.set r2 (PyObj.orows (oBlankRows df phases_checked))
            let σ14 := σ13.set r2 (PyObj.orows (oFinalRows df phases_checked))
            let σ15 := σ14 ++ [PyObj.orows (oFinalRows df phases_checked)]
            (σ15, .ok σ14.length)
          else (σ8, .error .keyError)
    else (σ, .error .keyError)
  else (σ ++ [PyObj.orows []], .ok σ.length)

set_option maxHeartbeats 2000000 in
theorem create_projects_st_preserves (σ : Store) (dfId : Nat)
    (pc : Option (List String)) (i : Nat) (hi : i < σ.length) :
    storeGetD ((create_projects_by_month_summary_st σ dfId pc).1) i = storeGetD σ i := by
  unfold create_projects_by_month_summary_st
  simp only []
  split_ifs <;>
    (repeat first
      | rfl
      | rw [getD_append_lt _ _ _ (by
          try simp only [List.length_append, List.length_set, List.length_singleton]
          omega)]
      | rw [getD_set_ne2 _ _ _ _ (by
          try simp only [List.length_append, List.length_set, List.length_singleton]
          omega)])

/-- One iteration of the emission loop of src lines 337-383 over the heap:
the `.loc` writes of one iteration extend the result frame in place. -/
def emitLoopStep (r1 : Nat) (sorted : List PivotRow) (cd ph : List (String × String))
    (rules : Rules) (st : Store × Option String) (r : PivotRow) : Store × Option String :=
  let rows := (storeGetD st.1 r1).asSRows
  if st.2 = some r.ressource then
    (st.1.set r1 (PyObj.srows (rows ++ [projRowOf cd ph rules r])), st.2)
  else
    (st.1.set r1 (PyObj.srows (rows ++ [resRowOf sorted r.ressource,
      projRowOf cd ph rules r])), some r.ressource)

/-- `DataProcessor.format_resource_summary` (src lines 286-387) over the heap:
`sort_values` allocates the sorted frame, the result frame is allocated
empty, and the loop mutates only the result frame. -/
def format_resource_summary_st (σ : Store) (pivotId : Nat)
    (cd ph md : List (String × String)) (rules : Rules) : Store × Nat :=
  let pivot := (storeGetD σ pivotId).asPRows
  let σ1 := σ ++ [PyObj.prows (sortPivot pivot)]
  let σ2 := σ1 ++ [PyObj.srows []]
  let r1 := σ1.length
  let loop := (sortPivot pivot).foldl (emitLoopStep r1 (sortPivot pivot) cd ph rules)
    (σ2, none)
  (loop.1, r1)

/-- The emission loop writes only the result id. -/
theorem emitLoop_preserves (r1 : Nat) (sorted : List PivotRow)
    (cd ph : List (String × String)) (rules : Rules) :
    ∀ (l : List PivotRow) (σ0 : Store) (cur : Option String) (i : Nat), i ≠ r1 →
      storeGetD ((l.foldl (emitLoopStep r1 sorted cd ph rules) (σ0, cur)).1) i =
        storeGetD σ0 i := by
  intro l
  induction l with
  | nil =>
    intro σ0 cur i _
    rfl
  | cons r rs ih =>
    intro σ0 cur i h
    rw [List.foldl_cons]
    by_cases hc : cur = some r.ressource
    · have hstep : emitLoopStep r1 sorted cd ph rules (σ0, cur) r =
          (σ0.set r1 (PyObj.srows ((storeGetD σ0 r1).asSRows ++
            [projRowOf cd ph rules r])), cur) := by
        unfold emitLoopStep
        rw [if_pos hc]
      rw [hstep, ih _ _ i h, getD_set_ne2 _ _ _ _ h]
    · have hstep : emitLoopStep r1 sorted cd ph rules (σ0, cur) r =
          (σ0.set r1 (PyObj.srows ((storeGetD σ0 r1).asSRows ++
            [resRowOf sorted r.ressource, projRowOf cd ph rules r])),
            some r.ressource) := by
        unfold emitLoopStep
        rw [if_neg hc]
      rw [hstep, ih _ _ i h, getD_set_ne2 _ _ _ _ h]

theorem format_resource_summary_st_preserves (σ : Store) (pivotId : Nat)
    (cd ph md : List (String × String)) (rules : Rules) (i : Nat)
    (hi : i < σ.length) :
    storeGetD ((format_resource_summary_st σ pivotId cd ph md rules).1) i =
      storeGetD σ i := by
  unfold format_resource_summary_st
  simp only []
  rw [emitLoop_preserves _ _ _ _ _ _ _ _ i (by
      simp only [List.length_append, List.length_singleton]
      omega),
    getD_append_lt _ _ _ (by
      simp only [List.length_append, List.length_singleton]
      omega),
    getD_append_lt _ _ _ hi]

/-- C8: none of the three operations mutates the caller-supplied table: every
object allocated before the call — in particular the input frame — holds
exactly the same columns and cells afterwards, whether the call succeeds or
raises; outputs are built in freshly allocated frames. -/
theorem no_caller_table_mutation (σ : Store) (dfId : Nat) (i : Nat)
    (hi : i < σ.length) :
    storeGetD ((calculate_charge_jh_st σ dfId).1) i = storeGetD σ i ∧
    (∀ pc, storeGetD ((create_projects_by_month_summary_st σ dfId pc).1) i =
      storeGetD σ i) ∧
    (∀ cd ph md rules, storeGetD ((format_resource_summary_st σ dfId cd ph md rules).1) i =
      storeGetD σ i) :=
  ⟨storeExt_getD σ _ (calculate_charge_jh_st_ext σ dfId) i hi,
   fun pc => create_projects_st_preserves σ dfId pc i hi,
   fun cd ph md rules => format_resource_summary_st_preserves σ dfId cd ph md rules i hi⟩

/-- A concrete two-object heap: a deployments frame and a pivot table. -/
def wStore : Store := [PyObj.df fullColsDf, PyObj.prows wPivot]

/-- Witness for the C8 theorem on a concrete heap. -/
theorem no_caller_table_mutation_witness :
    storeGetD ((calculate_charge_jh_st wStore 0).1) 0 = storeGetD wStore 0 ∧
    storeGetD ((create_projects_by_month_summary_st wStore 0 none).1) 0 =
      storeGetD wStore 0 ∧
    storeGetD ((format_resource_summary_st wStore 1 wCd wPh [] wRules).1) 1 =
      storeGetD wStore 1 :=
  ⟨(no_caller_table_mutation wStore 0 0 (by decide)).1,
   (no_caller_table_mutation wStore 0 0 (by decide)).2.1 none,
   (no_caller_table_mutation wStore 1 1 (by decide)).2.2 wCd wPh [] wRules⟩
